import Mathlib

/-!
OCallback, a typed callback container.

A shallow embedding of `callback.h` / `callbackimpl.h` (class `OCallback::Callback`) and of the
receiver class of `example.cpp`, followed by theorems about registration, unregistration,
argument adaptation and emission.

Conventions of the embedding:

* a `Callback<Args_...>` object is the vector `demarshallers`; the event arity is the length of
  the argument list handed to `emitCallback`;
* the class templates `DemarshallerMethod<Receiver_, Method_>` and
  `DemarshallerMethodData<Receiver_, Method_, Data_...>` become one record type whose
  `userdata` field is `none` for the former and `some data` for the latter;
* template instantiations that the compiler rejects (an index outside a tuple) evaluate to
  `Fault.illFormed`;
* callback methods are application code: their effect is a parameter `beh` that maps the
  application state and the call received to a new application state and the operations the
  method body performs on the callback object;
* the emission of callbacks from callback methods may recurse without bound, so `emitCallback`
  takes fuel: the maximal nesting depth of emissions;
* `emitCallback` returns the state or the fault; `emitCallbackTraced` is the same evaluation
  with the state reached at a fault kept, and `emitCallbackTraced_outcome` relates the two.
-/

namespace OCallback

/-! ## Values and types -/

/-- Parameter and return types that method signatures are built from. -/
inductive CType where
  | void
  | int
  | cstr
  | string
  | pointer (cls : Nat)
  deriving DecidableEq, Repr

/-- Run-time values held by the argument tuple and by the user data of a record. -/
inductive Value where
  | int (n : Int)
  | text (s : String)
  | pointer (addr : Nat)
  deriving DecidableEq, Repr

namespace Private

/-- Template `GenSequence<N_, Seq_...>`: it derives from `GenSequence<N_ - 1, N_ - 1, Seq_...>`,
and `GenSequence<0, Seq_...>::SeqType` is `NumSequence<Seq_...>`. -/
def GenSequence : Nat → List Nat → List Nat
  | 0, seq => seq
  | n + 1, seq => GenSequence n (n :: seq)

end Private

/-- Template arguments of a typed demarshaller: the class `Receiver_` and the method type
`Method_ = FRet_ (Receiver_::*)(FArgs_...)`. -/
structure Binding where
  receiverClass : Nat
  ret : CType
  params : List CType
  deriving DecidableEq, Repr

namespace Private

/-- Template `ArgumentCount<FRet_ (Receiver_::*)(FArgs_...)>`: the value `sizeof...(FArgs_)`. -/
def ArgumentCount (b : Binding) : Nat :=
  b.params.length

end Private

/-- One call `(receiver->*method)(args...)` of a callback method. -/
structure Call where
  binding : Binding
  receiver : Nat
  method : Nat
  args : List Value
  deriving DecidableEq, Repr

/-- Ways in which an evaluation does not return normally. -/
inductive Fault where
  /-- The `assert(false)` of `DemarshallerMethod::emitCallback`. -/
  | assertFailed
  /-- A template instantiation that does not compile. -/
  | illFormed
  /-- An exception thrown by a callback method. -/
  | thrown (e : Nat)
  /-- The nesting of emissions exceeds the fuel. -/
  | outOfFuel
  deriving DecidableEq, Repr

/-! ## Demarshallers -/

/-- An object of class `DemarshallerMethod<Receiver_, Method_>` (`userdata = none`) or of its
subclass `DemarshallerMethodData<Receiver_, Method_, Data_...>` (`userdata = some data`). -/
structure Demarshaller where
  binding : Binding
  receiver : Nat
  method : Nat
  userdata : Option (List Value)
  deriving DecidableEq, Repr

/-- Constructor `DemarshallerMethod(receiver_, method_)`. -/
def DemarshallerMethod (b : Binding) (receiver method : Nat) : Demarshaller :=
  { binding := b, receiver := receiver, method := method, userdata := none }

/-- Constructor `DemarshallerMethodData(receiver_, method_, data_...)`. -/
def DemarshallerMethodData (b : Binding) (receiver method : Nat) (data : List Value) :
    Demarshaller :=
  { binding := b, receiver := receiver, method := method, userdata := some data }

/-- Pack expansion `std::get<Seq_>(tuple)...`: the tuple elements at the given indices, in the
order of the indices; an index outside the tuple does not compile. -/
def getAll (tuple : List Value) : List Nat → Option (List Value)
  | [] => some []
  | i :: seq =>
    match tuple[i]?, getAll tuple seq with
    | some v, some vs => some (v :: vs)
    | _, _ => none

namespace Demarshaller

/-- Method `DemarshallerMethod::isEqual`: the `dynamic_cast` of `d2` to
`const DemarshallerMethod<Receiver_, Method_>*` succeeds exactly when `d2` was instantiated
with the same `Receiver_` and `Method_`; then receiver and method pointers are compared. -/
def isEqual (self d2 : Demarshaller) : Bool :=
  decide (d2.binding = self.binding)
    && decide (self.receiver = d2.receiver)
    && decide (self.method = d2.method)

/-- Method `DemarshallerMethod::callMethod`: calls
`(receiver->*method)(std::get<Seq_>(arguments_)..., std::get<DataSeq_>(userdata_)...)`. -/
def callMethod (self : Demarshaller) (seq dataSeq : List Nat)
    (arguments userdata : List Value) : Except Fault Call :=
  match getAll arguments seq, getAll userdata dataSeq with
  | some as, some us =>
    .ok { binding := self.binding, receiver := self.receiver, method := self.method,
          args := as ++ us }
  | _, _ => .error .illFormed

/-- Virtual method `emitCallback`. `DemarshallerMethod::emitCallback` is `assert(false)`;
`DemarshallerMethodData::emitCallback` calls `callMethod` with the index sequences
`GenSequence<ArgumentCount<Method_>::value - tuple_size<UserData>::value>` and
`GenSequence<tuple_size<UserData>::value>`. The difference is computed on `std::size_t`, and
a wrapped-around value is not a valid `int` template argument. -/
def emitCallback (self : Demarshaller) (args : List Value) : Except Fault Call :=
  match self.userdata with
  | none => .error .assertFailed
  | some userdata =>
    if userdata.length ≤ Private.ArgumentCount self.binding then
      self.callMethod
        (Private.GenSequence (Private.ArgumentCount self.binding - userdata.length) [])
        (Private.GenSequence userdata.length [])
        args userdata
    else .error .illFormed

end Demarshaller

/-! ## The callback object -/

/-- Class `Callback<Args_...>`: the vector `demarshallers`. -/
structure Callback where
  demarshallers : List Demarshaller
  deriving DecidableEq, Repr

namespace Callback

/-- Constructor `Callback()`: an empty vector. -/
def empty : Callback :=
  { demarshallers := [] }

/-- Method `appendDemarshaller`: `demarshallers.push_back(dm_)`. -/
def appendDemarshaller (self : Callback) (dm : Demarshaller) : Callback :=
  { demarshallers := self.demarshallers ++ [dm] }

/-- Method `removeDemarshaller`: `std::remove_if` with the predicate `dm_.isEqual(dm2_.get())`
followed by `erase` of the tail. -/
def removeDemarshaller (self : Callback) (dm : Demarshaller) : Callback :=
  { demarshallers := self.demarshallers.filter (fun dm2 => !dm.isEqual dm2) }

/-- Method `registerCallbackMethod(receiver_, method_, udata_...)`. -/
def registerCallbackMethod (self : Callback) (b : Binding) (receiver method : Nat)
    (udata : List Value) : Callback :=
  self.appendDemarshaller (DemarshallerMethodData b receiver method udata)

/-- Method `unregisterCallbackMethod(receiver_, method_)`. -/
def unregisterCallbackMethod (self : Callback) (b : Binding) (receiver method : Nat) :
    Callback :=
  self.removeDemarshaller (DemarshallerMethod b receiver method)

end Callback

/-! ## Callback methods and emission -/

/-- An operation that the body of a callback method performs on the callback object. -/
inductive Action where
  | registerCallbackMethod (b : Binding) (receiver method : Nat) (udata : List Value)
  | unregisterCallbackMethod (b : Binding) (receiver method : Nat)
  | emitCallback (args : List Value)
  | raise (e : Nat)
  deriving DecidableEq, Repr

/-- What happened, in temporal order: calls of callback methods, and the operations that the
callback methods performed on the callback object. -/
inductive Event where
  | call (c : Call)
  | action (a : Action)
  deriving DecidableEq, Repr

/-- The callback object, the state of the application, and the history of events. -/
structure World (σ : Type) where
  cb : Callback
  app : σ
  log : List Event

/-- The code of the callback methods: from the application state and the call received, the
new application state and the operations performed on the callback object, in order. -/
abbrev Behaviour (σ : Type) := σ → Call → σ × List Action

/-- Runs the operations of one callback method body. The argument `emit` is the emission of
callbacks available to the body. -/
def runActions {σ : Type} (emit : List Value → World σ → Except Fault (World σ)) :
    List Action → World σ → Except Fault (World σ)
  | [], w => .ok w
  | a :: rest, w =>
    let w1 : World σ := { w with log := w.log ++ [Event.action a] }
    match a with
    | .registerCallbackMethod b r m udata =>
      runActions emit rest { w1 with cb := w1.cb.registerCallbackMethod b r m udata }
    | .unregisterCallbackMethod b r m =>
      runActions emit rest { w1 with cb := w1.cb.unregisterCallbackMethod b r m }
    | .emitCallback args =>
      match emit args w1 with
      | .ok w2 => runActions emit rest w2
      | .error e => .error e
    | .raise e => .error (.thrown e)

/-- The loop `for(auto demarshaller_ : dms_) demarshaller_ -> emitCallback(arguments_);` over
the copy `dms_` of the vector. -/
def emitLoop {σ : Type} (beh : Behaviour σ)
    (emit : List Value → World σ → Except Fault (World σ)) (arguments : List Value) :
    List Demarshaller → World σ → Except Fault (World σ)
  | [], w => .ok w
  | dm :: dms, w =>
    match dm.emitCallback arguments with
    | .error e => .error e
    | .ok c =>
      let body := beh w.app c
      match runActions emit body.2
          { w with app := body.1, log := w.log ++ [Event.call c] } with
      | .error e => .error e
      | .ok w1 => emitLoop beh emit arguments dms w1

/-- Method `Callback::emitCallback(args_...)`: builds the argument tuple, copies the vector of
demarshallers, and calls every demarshaller of the copy. -/
def emitCallback {σ : Type} (beh : Behaviour σ) :
    Nat → List Value → World σ → Except Fault (World σ)
  | 0, _, _ => .error .outOfFuel
  | fuel + 1, args, w =>
    emitLoop beh (emitCallback beh fuel) args w.cb.demarshallers w

/-- The calls of callback methods among the events. -/
def calls : List Event → List Call
  | [] => []
  | .call c :: es => c :: calls es
  | .action _ :: es => calls es

/-- The operations performed by callback methods among the events. -/
def actions : List Event → List Action
  | [] => []
  | .call _ :: es => actions es
  | .action a :: es => a :: actions es

/-! ## Emission with the state kept at a fault

An exception that leaves `emitCallback` does not undo what happened before it. The functions
below are the functions above with a result that keeps the state reached when the evaluation
stops: the fault is `none` for a normal return. -/

/-- The result of `runActionsTraced`, `emitLoopTraced` and `emitCallbackTraced` as a result
of `runActions`, `emitLoop` and `emitCallback`. -/
def outcome {σ : Type} : World σ × Option Fault → Except Fault (World σ)
  | (w, none) => .ok w
  | (_, some e) => .error e

/-- Runs the operations of one callback method body, as `runActions` does, and keeps the
state reached at a fault. -/
def runActionsTraced {σ : Type} (emit : List Value → World σ → World σ × Option Fault) :
    List Action → World σ → World σ × Option Fault
  | [], w => (w, none)
  | a :: rest, w =>
    let w1 : World σ := { w with log := w.log ++ [Event.action a] }
    match a with
    | .registerCallbackMethod b r m udata =>
      runActionsTraced emit rest { w1 with cb := w1.cb.registerCallbackMethod b r m udata }
    | .unregisterCallbackMethod b r m =>
      runActionsTraced emit rest { w1 with cb := w1.cb.unregisterCallbackMethod b r m }
    | .emitCallback args =>
      match emit args w1 with
      | (w2, none) => runActionsTraced emit rest w2
      | (w2, some e) => (w2, some e)
    | .raise e => (w1, some (.thrown e))

/-- The loop `for(auto demarshaller_ : dms_) demarshaller_ -> emitCallback(arguments_);`, as
`emitLoop`, with the state reached at a fault kept. -/
def emitLoopTraced {σ : Type} (beh : Behaviour σ)
    (emit : List Value → World σ → World σ × Option Fault) (arguments : List Value) :
    List Demarshaller → World σ → World σ × Option Fault
  | [], w => (w, none)
  | dm :: dms, w =>
    match dm.emitCallback arguments with
    | .error e => (w, some e)
    | .ok c =>
      let body := beh w.app c
      match runActionsTraced emit body.2
          { w with app := body.1, log := w.log ++ [Event.call c] } with
      | (w1, none) => emitLoopTraced beh emit arguments dms w1
      | (w1, some e) => (w1, some e)

/-- Method `Callback::emitCallback(args_...)`, as `emitCallback`, with the state reached at a
fault kept. -/
def emitCallbackTraced {σ : Type} (beh : Behaviour σ) :
    Nat → List Value → World σ → World σ × Option Fault
  | 0, _, w => (w, some .outOfFuel)
  | fuel + 1, args, w =>
    emitLoopTraced beh (emitCallbackTraced beh fuel) args w.cb.demarshallers w

/-! ## Vocabulary of the statements -/

/-- Static contract of a stored record for an event of the given arity, as the compiler
enforces it when `DemarshallerMethodData::emitCallback` is instantiated: the record carries
user data, not more of them than the method has parameters, and the remaining parameters do
not outnumber the event arguments. -/
def Demarshaller.invocable (d : Demarshaller) (arity : Nat) : Bool :=
  match d.userdata with
  | none => false
  | some userdata =>
    decide (userdata.length ≤ Private.ArgumentCount d.binding)
      && decide (Private.ArgumentCount d.binding - userdata.length ≤ arity)

/-- The call is addressed to the receiver and method of the record. -/
def Call.targets (c : Call) (d : Demarshaller) : Prop :=
  c.binding = d.binding ∧ c.receiver = d.receiver ∧ c.method = d.method

/-- Registration and unregistration, the operations that change the vector. -/
def Action.isUpdate : Action → Bool
  | .registerCallbackMethod _ _ _ _ => true
  | .unregisterCallbackMethod _ _ _ => true
  | _ => false

/-- Unregistrations. -/
def Action.isUnregister : Action → Bool
  | .unregisterCallbackMethod _ _ _ => true
  | _ => false

/-- Effect of one operation on the callback object, emissions and exceptions left out. -/
def applyAction (cb : Callback) : Action → Callback
  | .registerCallbackMethod b r m udata => cb.registerCallbackMethod b r m udata
  | .unregisterCallbackMethod b r m => cb.unregisterCallbackMethod b r m
  | _ => cb

/-- Effect of a sequence of operations on the callback object, first operation first. -/
def applyActions (cb : Callback) (acts : List Action) : Callback :=
  acts.foldl applyAction cb

/-- The container after the registrations of one receiver and method with each of the given
user data, in order. -/
def registerAll (cb : Callback) (b : Binding) (receiver method : Nat) :
    List (List Value) → Callback
  | [] => cb
  | udata :: rest =>
    registerAll (cb.registerCallbackMethod b receiver method udata) b receiver method rest

/-! ## The program of `example.cpp` -/

namespace Example

/-- Identifier of class `A`. -/
def classA : Nat := 0

/-- Identifier of class `CB`, the type `Callback<int, const char*, std::string>`. -/
def classCB : Nat := 1

/-- Type of `&A::CB1`: `void (A::*)(int, const char*, const std::string&)`. -/
def sigCB1 : Binding := { receiverClass := classA, ret := .void, params := [.int, .cstr, .string] }

/-- Type of `&A::CB2`: `void (A::*)(int, const char*)`. -/
def sigCB2 : Binding := { receiverClass := classA, ret := .void, params := [.int, .cstr] }

/-- Type of `&A::CB3`: `void (A::*)(int, const char*, const std::string&, int)`. -/
def sigCB3 : Binding :=
  { receiverClass := classA, ret := .void, params := [.int, .cstr, .string, .int] }

/-- Type of `&A::CB4`: `void (A::*)(int, const char*, int)`. -/
def sigCB4 : Binding := { receiverClass := classA, ret := .void, params := [.int, .cstr, .int] }

/-- Type of `&A::CB5`: `void (A::*)(CB*)`. -/
def sigCB5 : Binding := { receiverClass := classA, ret := .void, params := [.pointer classCB] }

/-- Member pointer `&A::CB1`. -/
def CB1 : Nat := 1

/-- Member pointer `&A::CB2`. -/
def CB2 : Nat := 2

/-- Member pointer `&A::CB3`. -/
def CB3 : Nat := 3

/-- Member pointer `&A::CB4`. -/
def CB4 : Nat := 4

/-- Member pointer `&A::CB5`. -/
def CB5 : Nat := 5

/-- Address of the receiver `a1`. -/
def a1 : Nat := 1001

/-- Address of the receiver `a2`. -/
def a2 : Nat := 1002

/-- Address of the callback object `cb`. -/
def cbAddr : Nat := 2000

/-- Bodies of the methods of class `A`: `CB1` to `CB4` only print, `CB5` prints and calls
`cb_ -> unregisterCallbackMethod(this, &A::CB5)`. The printed line is the logged call. -/
def body : Behaviour Unit := fun s c =>
  if c.binding = sigCB5 ∧ c.method = CB5 then
    (s, [Action.unregisterCallbackMethod sigCB5 c.receiver CB5])
  else (s, [])

/-- The callback object of `main` after the ten registrations, with an empty history. -/
def registered : World Unit :=
  { cb := (((((((((Callback.empty.registerCallbackMethod sigCB1 a1 CB1 []
      ).registerCallbackMethod sigCB2 a1 CB2 []
      ).registerCallbackMethod sigCB3 a1 CB3 [.int 13]
      ).registerCallbackMethod sigCB4 a1 CB4 [.int 15]
      ).registerCallbackMethod sigCB5 a1 CB5 [.pointer cbAddr]
      ).registerCallbackMethod sigCB1 a2 CB1 []
      ).registerCallbackMethod sigCB2 a2 CB2 []
      ).registerCallbackMethod sigCB3 a2 CB3 [.int 210]
      ).registerCallbackMethod sigCB4 a2 CB4 [.int 120]
      ).registerCallbackMethod sigCB5 a2 CB5 [.pointer cbAddr],
    app := (), log := [] }

/-- A callback method, not part of `example.cpp`, that emits the callback again, with the
arguments 1, "a", "b", the first time it is called and counts its calls in the application
state. -/
def reemitting : Behaviour Nat := fun s _ =>
  if s = 0 then (s + 1, [Action.emitCallback [.int 1, .text "a", .text "b"]])
  else (s + 1, [])

/-- Method bodies, not part of `example.cpp`, of which the one of `CB2` throws the
exception 7 and the others do nothing. -/
def failing : Behaviour Unit := fun s c =>
  if c.method = CB2 then (s, [Action.raise 7]) else (s, [])

end Example

/-! ## Index sequences and the invocation of one record -/

theorem Private.GenSequence_eq (n : Nat) (seq : List Nat) :
    Private.GenSequence n seq = List.range n ++ seq := by
  induction n generalizing seq with
  | zero => simp [Private.GenSequence]
  | succ n ih => rw [Private.GenSequence, ih, List.range_succ]; simp

theorem getAll_range' (tuple : List Value) (n k : Nat) (h : k + n ≤ tuple.length) :
    getAll tuple (List.range' k n) = some ((tuple.drop k).take n) := by
  induction n generalizing k with
  | zero => simp [getAll]
  | succ n ih =>
    have hk : k < tuple.length := by omega
    have hd : tuple.drop k = tuple[k] :: tuple.drop (k + 1) := List.drop_eq_getElem_cons hk
    rw [List.range'_succ, getAll, ih (k + 1) (by omega), List.getElem?_eq_getElem hk, hd,
      List.take_succ_cons]

theorem getAll_range (tuple : List Value) (n : Nat) (h : n ≤ tuple.length) :
    getAll tuple (List.range n) = some (tuple.take n) := by
  rw [List.range_eq_range', getAll_range' tuple n 0 (by omega)]
  simp


theorem getAll_lt (tuple : List Value) (seq : List Nat) (vs : List Value)
    (h : getAll tuple seq = some vs) : ∀ i ∈ seq, i < tuple.length := by
  induction seq generalizing vs with
  | nil => simp
  | cons j seq ih =>
    intro i hi
    rw [getAll] at h
    cases hj : tuple[j]? with
    | none => simp [hj] at h
    | some v =>
      cases hs : getAll tuple seq with
      | none => simp [hj, hs] at h
      | some us =>
        rcases List.mem_cons.mp hi with rfl | hi
        · by_contra hlt
          rw [List.getElem?_eq_none (by omega)] at hj
          cases hj
        · exact ih us hs i hi

theorem Demarshaller.emitCallback_data (d : Demarshaller) (userdata args : List Value)
    (hd : d.userdata = some userdata)
    (hk : userdata.length ≤ d.binding.params.length)
    (hm : d.binding.params.length - userdata.length ≤ args.length) :
    d.emitCallback args = .ok
      { binding := d.binding, receiver := d.receiver, method := d.method,
        args := args.take (d.binding.params.length - userdata.length) ++ userdata } := by
  unfold Demarshaller.emitCallback
  rw [hd]
  simp only [Private.ArgumentCount, hk, if_true, Private.GenSequence_eq, List.append_nil,
    Demarshaller.callMethod]
  rw [getAll_range _ _ hm, getAll_range _ _ (Nat.le_refl _)]
  simp

theorem Demarshaller.invocable_iff (d : Demarshaller) (arity : Nat) :
    d.invocable arity = true ↔
      ∃ userdata, d.userdata = some userdata ∧ userdata.length ≤ d.binding.params.length
        ∧ d.binding.params.length - userdata.length ≤ arity := by
  unfold Demarshaller.invocable
  cases d.userdata with
  | none => simp
  | some u => simp [Private.ArgumentCount]

theorem Demarshaller.emitCallback_of_invocable (d : Demarshaller) (args : List Value)
    (h : d.invocable args.length = true) : ∃ c, d.emitCallback args = .ok c := by
  obtain ⟨u, hu, hk, hm⟩ := (d.invocable_iff _).mp h
  exact ⟨_, d.emitCallback_data u args hu hk hm⟩

theorem Demarshaller.invocable_of_emitCallback (d : Demarshaller) (args : List Value) (c : Call)
    (h : d.emitCallback args = .ok c) : d.invocable args.length = true := by
  rw [Demarshaller.invocable_iff]
  unfold Demarshaller.emitCallback at h
  cases hu : d.userdata with
  | none => simp [hu] at h
  | some u =>
    simp only [hu, Private.ArgumentCount] at h
    by_cases hk : u.length ≤ d.binding.params.length
    · refine ⟨u, rfl, hk, ?_⟩
      simp only [hk, if_true, Demarshaller.callMethod, Private.GenSequence_eq,
        List.append_nil] at h
      cases hs : getAll args (List.range (d.binding.params.length - u.length)) with
      | none => simp [hs] at h
      | some vs =>
        by_contra hlt
        have := getAll_lt _ _ _ hs args.length (List.mem_range.mpr (by omega))
        omega
    · simp [hk] at h

theorem calls_append (xs ys : List Event) : calls (xs ++ ys) = calls xs ++ calls ys := by
  induction xs with
  | nil => rfl
  | cons e xs ih => cases e <;> simp [calls, ih]

theorem actions_append (xs ys : List Event) : actions (xs ++ ys) = actions xs ++ actions ys := by
  induction xs with
  | nil => rfl
  | cons e xs ih => cases e <;> simp [actions, ih]

theorem calls_map_action (acts : List Action) : calls (acts.map Event.action) = [] := by
  induction acts with
  | nil => rfl
  | cons a acts ih => simpa [calls] using ih

theorem actions_map_action (acts : List Action) : actions (acts.map Event.action) = acts := by
  induction acts with
  | nil => rfl
  | cons a acts ih => simpa [actions] using ih

theorem applyActions_append (cb : Callback) (xs ys : List Action) :
    applyActions cb (xs ++ ys) = applyActions (applyActions cb xs) ys := by
  simp [applyActions]

theorem runActions_updates {σ : Type} (emit : List Value → World σ → Except Fault (World σ))
    (acts : List Action) (w : World σ) (h : ∀ a ∈ acts, a.isUpdate = true) :
    runActions emit acts w = .ok
      { cb := applyActions w.cb acts, app := w.app, log := w.log ++ acts.map Event.action } := by
  induction acts generalizing w with
  | nil => simp [runActions, applyActions]
  | cons a rest ih =>
    have hrest : ∀ x ∈ rest, x.isUpdate = true := fun x hx => h x (List.mem_cons_of_mem _ hx)
    have ha := h a (List.mem_cons_self _ _)
    cases a with
    | registerCallbackMethod b r m ud =>
      simp [runActions, ih _ hrest, applyActions, applyAction]
    | unregisterCallbackMethod b r m =>
      simp [runActions, ih _ hrest, applyActions, applyAction]
    | emitCallback args => simp [Action.isUpdate] at ha
    | raise e => simp [Action.isUpdate] at ha

theorem emitLoop_updates {σ : Type} (P : Action → Prop) (hP : ∀ a, P a → a.isUpdate = true)
    (beh : Behaviour σ) (emit : List Value → World σ → Except Fault (World σ))
    (args : List Value) (ds : List Demarshaller) (w : World σ)
    (hinv : ∀ d ∈ ds, d.invocable args.length = true)
    (hbeh : ∀ d ∈ ds, ∀ c, d.emitCallback args = .ok c →
      ∀ s, ∀ a ∈ (beh s c).2, P a) :
    ∃ w1 evs, emitLoop beh emit args ds w = .ok w1
      ∧ w1.log = w.log ++ evs
      ∧ List.Forall₂ (fun d c => d.emitCallback args = .ok c) ds (calls evs)
      ∧ w1.cb = applyActions w.cb (actions evs)
      ∧ ∀ a ∈ actions evs, P a := by
  induction ds generalizing w with
  | nil => exact ⟨w, [], rfl, by simp, by simp [calls], by simp [actions, applyActions],
      by simp [actions]⟩
  | cons d ds ih =>
    obtain ⟨c, hc⟩ := d.emitCallback_of_invocable args (hinv d (List.mem_cons_self _ _))
    have hacts := hbeh d (List.mem_cons_self _ _) c hc w.app
    obtain ⟨w1, evs, hrun, hlog, hcalls, hcb, hall⟩ :=
      ih { cb := applyActions w.cb (beh w.app c).2, app := (beh w.app c).1,
           log := w.log ++ [Event.call c] ++ (beh w.app c).2.map Event.action }
        (fun x hx => hinv x (List.mem_cons_of_mem _ hx))
        (fun x hx => hbeh x (List.mem_cons_of_mem _ hx))
    refine ⟨w1, Event.call c :: ((beh w.app c).2.map Event.action ++ evs), ?_, ?_, ?_, ?_, ?_⟩
    · rw [emitLoop, hc]
      simp only
      rw [runActions_updates emit _ _ (fun a ha => hP a (hacts a ha))]
      exact hrun
    · simp [hlog]
    · simp only [calls, calls_append, calls_map_action, List.nil_append]
      exact List.Forall₂.cons hc hcalls
    · simp only [actions, actions_append, actions_map_action, applyActions_append]
      exact hcb
    · simp only [actions, actions_append, actions_map_action]
      intro a ha
      rcases List.mem_append.mp ha with h1 | h2
      · exact hacts a h1
      · exact hall a h2

theorem eq_map_call_of_actions_nil (evs : List Event) (h : actions evs = []) :
    evs = (calls evs).map Event.call := by
  induction evs with
  | nil => rfl
  | cons e evs ih =>
    cases e with
    | call c => simp only [actions] at h; simp only [calls, List.map_cons]; rw [← ih h]
    | action a => simp [actions] at h

theorem Demarshaller.targets_of_emitCallback (d : Demarshaller) (args : List Value) (c : Call)
    (h : d.emitCallback args = .ok c) : c.targets d := by
  obtain ⟨u, hu, hk, hm⟩ := (d.invocable_iff _).mp (d.invocable_of_emitCallback args c h)
  rw [d.emitCallback_data u args hu hk hm] at h
  cases h
  exact ⟨rfl, rfl, rfl⟩

theorem emitCallback_updates {σ : Type} (P : Action → Prop)
    (hP : ∀ a, P a → a.isUpdate = true) (beh : Behaviour σ) (fuel : Nat)
    (args : List Value) (w : World σ)
    (hinv : ∀ d ∈ w.cb.demarshallers, d.invocable args.length = true)
    (hbeh : ∀ d ∈ w.cb.demarshallers, ∀ c, d.emitCallback args = .ok c →
      ∀ s, ∀ a ∈ (beh s c).2, P a) :
    ∃ w1 evs, emitCallback beh (fuel + 1) args w = .ok w1
      ∧ w1.log = w.log ++ evs
      ∧ List.Forall₂ (fun d c => d.emitCallback args = .ok c) w.cb.demarshallers (calls evs)
      ∧ w1.cb = applyActions w.cb (actions evs)
      ∧ ∀ a ∈ actions evs, P a :=
  emitLoop_updates P hP beh (emitCallback beh fuel) args w.cb.demarshallers w hinv hbeh

/-! ## Registration, unregistration and emission -/

/-- C1 as stated fails: that no callback method modifies the container does not make the
emission call every record once and in order. On the container of `main` after the ten
registrations, all of whose records can be invoked, take method bodies that perform no
registration and no unregistration. With the bodies `failing`, of which `CB2` throws, the
emission fails with the exception 7 after the calls of the first two records; the other
eight records are not called. With the bodies `reemitting`, of which the first one called
emits the callback again, the emission returns with the container unchanged after twenty
calls for ten records, and the second call is `CB1` of `a1` again, with the arguments of
the nested emission, not the call of the second record. -/
theorem order_preservation_unmodified_counterexample :
    (∀ d ∈ Example.registered.cb.demarshallers, d.invocable 3 = true)
      ∧ (∀ s c, ∀ a ∈ (Example.failing s c).2, a.isUpdate = false)
      ∧ emitCallback Example.failing 1 [.int 10, .text "ahoj", .text "Foo"]
          Example.registered = .error (Fault.thrown 7)
      ∧ calls (emitCallbackTraced Example.failing 1 [.int 10, .text "ahoj", .text "Foo"]
          Example.registered).1.log =
          [{ binding := Example.sigCB1, receiver := Example.a1, method := Example.CB1,
             args := [.int 10, .text "ahoj", .text "Foo"] },
           { binding := Example.sigCB2, receiver := Example.a1, method := Example.CB2,
             args := [.int 10, .text "ahoj"] }]
      ∧ (∀ s c, ∀ a ∈ (Example.reemitting s c).2, a.isUpdate = false)
      ∧ ∃ w1, emitCallback Example.reemitting 2 [.int 10, .text "ahoj", .text "Foo"]
            { cb := Example.registered.cb, app := 0, log := [] } = .ok w1
          ∧ w1.cb = Example.registered.cb
          ∧ (calls w1.log).length = 20
          ∧ (calls w1.log)[1]? = some
              { binding := Example.sigCB1, receiver := Example.a1, method := Example.CB1,
                args := [.int 1, .text "a", .text "b"] } := by
  refine ⟨by decide, ?_, rfl, rfl, ?_, _, rfl, rfl, rfl, rfl⟩
  · intro s c a ha
    unfold Example.failing at ha
    split_ifs at ha
    · simp only [List.mem_singleton] at ha
      subst ha
      rfl
    · simp at ha
  · intro s c a ha
    unfold Example.reemitting at ha
    split_ifs at ha
    · simp only [List.mem_singleton] at ha
      subst ha
      rfl
    · simp at ha

/-- C1 as amended, order preservation. When every record of the container can be invoked with
the emitted arguments and no callback method of a record operates on the container or throws
(no registration, no unregistration, no emission of the callback, no exception), the
emission returns, leaves the container as it was, and adds to the history exactly one call
per record, in the order of the vector: the i-th call is the call of the i-th record. -/
theorem emitCallback_order_preservation {σ : Type} (beh : Behaviour σ) (fuel : Nat)
    (args : List Value) (w : World σ)
    (hinv : ∀ d ∈ w.cb.demarshallers, d.invocable args.length = true)
    (hquiet : ∀ d ∈ w.cb.demarshallers, ∀ c, d.emitCallback args = .ok c →
      ∀ s, (beh s c).2 = []) :
    ∃ w1 cs, emitCallback beh (fuel + 1) args w = .ok w1
      ∧ w1.cb = w.cb
      ∧ w1.log = w.log ++ cs.map Event.call
      ∧ cs.length = w.cb.demarshallers.length
      ∧ List.Forall₂ (fun d c => d.emitCallback args = .ok c) w.cb.demarshallers cs := by
  obtain ⟨w1, evs, hrun, hlog, hcalls, hcb, hnone⟩ :=
    emitCallback_updates (fun _ => False) (fun _ h => h.elim) beh fuel args w hinv
      (fun d hd c hc s a ha => by rw [hquiet d hd c hc s] at ha; cases ha)
  have hacts : actions evs = [] := List.eq_nil_iff_forall_not_mem.mpr (fun a ha => hnone a ha)
  refine ⟨w1, calls evs, hrun, ?_, ?_, hcalls.length_eq.symm, hcalls⟩
  · rw [hcb, hacts]; rfl
  · rw [hlog, ← eq_map_call_of_actions_nil evs hacts]

/-- Witness of C1 as amended: the records L1, L2, L3 of methods `CB1`, `CB2`, `CB3` (the last with user
datum 5) registered on an empty container, with callback methods that do nothing. -/
theorem emitCallback_order_preservation_witness :
    ∃ (w1 : World Unit) (cs : List Call),
      emitCallback (fun s _ => (s, [])) 1 [.int 10, .text "x", .text "y"]
          { cb := ((Callback.empty.registerCallbackMethod Example.sigCB1 Example.a1 Example.CB1
              []).registerCallbackMethod Example.sigCB2 Example.a1 Example.CB2
              []).registerCallbackMethod Example.sigCB3 Example.a1 Example.CB3 [.int 5],
            app := (), log := [] } = .ok w1
      ∧ w1.cb = ((Callback.empty.registerCallbackMethod Example.sigCB1 Example.a1 Example.CB1
              []).registerCallbackMethod Example.sigCB2 Example.a1 Example.CB2
              []).registerCallbackMethod Example.sigCB3 Example.a1 Example.CB3 [.int 5]
      ∧ w1.log = [] ++ cs.map Event.call
      ∧ cs.length = 3
      ∧ List.Forall₂ (fun d c => d.emitCallback [.int 10, .text "x", .text "y"] = .ok c)
          [DemarshallerMethodData Example.sigCB1 Example.a1 Example.CB1 [],
           DemarshallerMethodData Example.sigCB2 Example.a1 Example.CB2 [],
           DemarshallerMethodData Example.sigCB3 Example.a1 Example.CB3 [.int 5]] cs :=
  emitCallback_order_preservation (fun s _ => (s, [])) 0 [.int 10, .text "x", .text "y"]
    { cb := ((Callback.empty.registerCallbackMethod Example.sigCB1 Example.a1 Example.CB1
        []).registerCallbackMethod Example.sigCB2 Example.a1 Example.CB2
        []).registerCallbackMethod Example.sigCB3 Example.a1 Example.CB3 [.int 5],
      app := (), log := [] }
    (by decide) (fun _ _ _ _ _ => rfl)

theorem Demarshaller.isEqual_key (b : Binding) (r m : Nat) (d : Demarshaller) :
    (DemarshallerMethod b r m).isEqual d
      = decide (d.binding = b ∧ d.receiver = r ∧ d.method = m) := by
  simp only [Demarshaller.isEqual, DemarshallerMethod, Bool.decide_and, @eq_comm _ r,
    @eq_comm _ m, Bool.and_assoc]

theorem unregisterCallbackMethod_demarshallers (cb : Callback) (b : Binding) (r m : Nat) :
    (cb.unregisterCallbackMethod b r m).demarshallers
      = cb.demarshallers.filter
          (fun d => !decide (d.binding = b ∧ d.receiver = r ∧ d.method = m)) := by
  simp only [Callback.unregisterCallbackMethod, Callback.removeDemarshaller,
    Demarshaller.isEqual_key]

/-- C2, identity-based removal. After `unregisterCallbackMethod(R, M)` the container holds no
record whose receiver and method are `R` and `M`: the sub-sequence of such records is empty,
and a record of `(R, M)` occurs zero times whatever user data it carries, also none. -/
theorem unregisterCallbackMethod_removes_identity (cb : Callback) (b : Binding) (r m : Nat) :
    (cb.unregisterCallbackMethod b r m).demarshallers.filter
        (fun d => decide (d.binding = b ∧ d.receiver = r ∧ d.method = m)) = []
      ∧ ∀ userdata : Option (List Value),
          (cb.unregisterCallbackMethod b r m).demarshallers.count
            { binding := b, receiver := r, method := m, userdata := userdata } = 0 := by
  rw [unregisterCallbackMethod_demarshallers]
  constructor
  · rw [List.filter_filter, List.filter_eq_nil_iff]
    intro d _
    simp
  · intro userdata
    rw [List.count_eq_zero]
    intro hmem
    have := (List.mem_filter.mp hmem).2
    simp at this

/-- C3, removal keeps the rest intact and ordered. The vector after
`unregisterCallbackMethod(R, M)` is the vector before with the records of receiver `R` and
method `M` deleted and nothing else changed: it is the order-preserving selection of the
records whose receiver or method differ, and every such record, user data included, occurs
as many times as before. -/
theorem unregisterCallbackMethod_frame (cb : Callback) (b : Binding) (r m : Nat) :
    (cb.unregisterCallbackMethod b r m).demarshallers
        = cb.demarshallers.filter
            (fun d => !decide (d.binding = b ∧ d.receiver = r ∧ d.method = m))
      ∧ List.Sublist (cb.unregisterCallbackMethod b r m).demarshallers cb.demarshallers
      ∧ ∀ d : Demarshaller,
          (cb.unregisterCallbackMethod b r m).demarshallers.count d
            = if d.binding = b ∧ d.receiver = r ∧ d.method = m then 0
              else cb.demarshallers.count d := by
  rw [unregisterCallbackMethod_demarshallers]
  refine ⟨rfl, List.filter_sublist _, ?_⟩
  intro d
  by_cases h : d.binding = b ∧ d.receiver = r ∧ d.method = m
  · rw [if_pos h, List.count_eq_zero]
    intro hmem
    have := (List.mem_filter.mp hmem).2
    simp [h] at this
  · rw [if_neg h]
    refine List.count_filter ?_
    simp only [Bool.not_eq_true', decide_eq_false_iff_not]
    exact h

/-- C4, registration appends. After `registerCallbackMethod(R, M, c1..ck)` the vector is the
vector before followed by the one new record of `R`, `M` and the user data `c1..ck`; its
length has grown by one. The operation is a total function: it has no failure result. -/
theorem registerCallbackMethod_appends (cb : Callback) (b : Binding) (r m : Nat)
    (udata : List Value) :
    (cb.registerCallbackMethod b r m udata).demarshallers
        = cb.demarshallers
          ++ [{ binding := b, receiver := r, method := m, userdata := some udata }]
      ∧ (cb.registerCallbackMethod b r m udata).demarshallers.length
        = cb.demarshallers.length + 1
      ∧ (cb.registerCallbackMethod b r m udata).demarshallers.take cb.demarshallers.length
        = cb.demarshallers := by
  simp [Callback.registerCallbackMethod, Callback.appendDemarshaller, DemarshallerMethodData]

/-! ## Argument adaptation -/

theorem forall₂_getElem? {α β : Type} (R : α → β → Prop) (xs : List α) (ys : List β)
    (h : List.Forall₂ R xs ys) (i : Nat) (x : α) (hx : xs[i]? = some x) :
    ∃ y, ys[i]? = some y ∧ R x y := by
  induction h generalizing i with
  | nil => simp at hx
  | cons hxy _ ih =>
    cases i with
    | zero =>
      simp only [List.getElem?_cons_zero, Option.some.injEq] at hx
      subst hx
      exact ⟨_, by simp, hxy⟩
    | succ i =>
      simp only [List.getElem?_cons_succ] at hx
      simpa using ih i hx

theorem emitCallback_call_at {σ : Type} (beh : Behaviour σ) (fuel : Nat) (args : List Value)
    (w : World σ)
    (hinv : ∀ d ∈ w.cb.demarshallers, d.invocable args.length = true)
    (hbeh : ∀ d ∈ w.cb.demarshallers, ∀ c, d.emitCallback args = .ok c →
      ∀ s, ∀ a ∈ (beh s c).2, a.isUpdate = true)
    (i : Nat) (d : Demarshaller) (userdata : List Value)
    (hi : w.cb.demarshallers[i]? = some d) (hu : d.userdata = some userdata) :
    ∃ w1 evs, emitCallback beh (fuel + 1) args w = .ok w1
      ∧ w1.log = w.log ++ evs
      ∧ (calls evs).length = w.cb.demarshallers.length
      ∧ (calls evs)[i]? = some
          { binding := d.binding, receiver := d.receiver, method := d.method,
            args := args.take (d.binding.params.length - userdata.length) ++ userdata } := by
  obtain ⟨w1, evs, hrun, hlog, hcalls, -, -⟩ :=
    emitCallback_updates (fun a => a.isUpdate = true) (fun _ h => h) beh fuel args w hinv hbeh
  obtain ⟨c, hc, hdc⟩ := forall₂_getElem? _ _ _ hcalls i d hi
  obtain ⟨u, hu2, hk, hm⟩ :=
    (d.invocable_iff _).mp (hinv d (List.getElem?_mem hi))
  rw [hu] at hu2
  cases hu2
  rw [d.emitCallback_data userdata args hu hk hm] at hdc
  cases hdc
  exact ⟨w1, evs, hrun, hlog, hcalls.length_eq.symm, hc⟩

/-- C5 as stated fails: the record of `CB3` (four parameters) with user datum 5, invoked by the
emission of the three arguments 10, "x", "y", is called with 10, "x", "y", 5, that is with three
leading arguments and not with the two that the event arity minus the number of user data
gives. -/
theorem curried_replay_event_arity_counterexample :
    ∃ w1 : World Unit,
      emitCallback Example.body 1 [.int 10, .text "x", .text "y"]
          { cb := Callback.empty.registerCallbackMethod Example.sigCB3 Example.a1 Example.CB3
              [.int 5],
            app := (), log := [] } = .ok w1
      ∧ calls w1.log = [{ binding := Example.sigCB3, receiver := Example.a1,
                          method := Example.CB3,
                          args := [.int 10, .text "x", .text "y", .int 5] }]
      ∧ calls w1.log ≠ [{ binding := Example.sigCB3, receiver := Example.a1,
                          method := Example.CB3,
                          args := List.take
                              ([Value.int 10, .text "x", .text "y"].length - [Value.int 5].length)
                              [Value.int 10, .text "x", .text "y"]
                            ++ [Value.int 5] }] :=
  ⟨_, rfl, rfl, by decide⟩

/-- C5 as amended, curried replay. For every record of the container that carries the user
data `c1..ck` and whose method has `m` parameters, an emission in which the container's records
can be invoked and their methods neither emit nor throw returns and makes one call per record;
the call of this record, at the position of the record, passes the leading `m - k` emitted
arguments followed by `c1..ck`. -/
theorem emitCallback_curried_replay {σ : Type} (beh : Behaviour σ) (fuel : Nat)
    (args : List Value) (w : World σ)
    (hinv : ∀ d ∈ w.cb.demarshallers, d.invocable args.length = true)
    (hbeh : ∀ d ∈ w.cb.demarshallers, ∀ c, d.emitCallback args = .ok c →
      ∀ s, ∀ a ∈ (beh s c).2, a.isUpdate = true)
    (i : Nat) (d : Demarshaller) (userdata : List Value)
    (hi : w.cb.demarshallers[i]? = some d) (hu : d.userdata = some userdata) :
    ∃ w1 evs, emitCallback beh (fuel + 1) args w = .ok w1
      ∧ w1.log = w.log ++ evs
      ∧ (calls evs).length = w.cb.demarshallers.length
      ∧ (calls evs)[i]? = some
          { binding := d.binding, receiver := d.receiver, method := d.method,
            args := args.take (Private.ArgumentCount d.binding - userdata.length)
              ++ userdata } :=
  emitCallback_call_at beh fuel args w hinv hbeh i d userdata hi hu

theorem Example.body_isUnregister (s : Unit) (c : Call) :
    ∀ a ∈ (Example.body s c).2, a.isUnregister = true := by
  intro a ha
  unfold Example.body at ha
  split_ifs at ha
  · simp only [List.mem_singleton] at ha
    subst ha
    rfl
  · simp at ha

theorem Example.body_isUpdate (s : Unit) (c : Call) :
    ∀ a ∈ (Example.body s c).2, a.isUpdate = true := by
  intro a ha
  have h := Example.body_isUnregister s c a ha
  cases a <;> simp_all [Action.isUnregister, Action.isUpdate]

/-- Witness of C5 as amended: the first emission of `main`, at the record of `a1` and `CB3`
with user datum 13 (position 2 of the vector). -/
theorem emitCallback_curried_replay_witness :
    ∃ w1 evs, emitCallback Example.body 1 [.int 10, .text "ahoj", .text "Foo"]
        Example.registered = .ok w1
      ∧ w1.log = Example.registered.log ++ evs
      ∧ (calls evs).length = Example.registered.cb.demarshallers.length
      ∧ (calls evs)[2]? = some
          { binding := Example.sigCB3, receiver := Example.a1, method := Example.CB3,
            args := List.take (Private.ArgumentCount Example.sigCB3 - [Value.int 13].length)
                [.int 10, .text "ahoj", .text "Foo"] ++ [.int 13] } :=
  emitCallback_curried_replay Example.body 0 [.int 10, .text "ahoj", .text "Foo"]
    Example.registered (by decide) (fun _ _ c _ s => Example.body_isUpdate s c) 2
    (DemarshallerMethodData Example.sigCB3 Example.a1 Example.CB3 [.int 13]) [.int 13] rfl rfl

/-- C6, argument adaptation. A record whose method has `m` parameters and which carries `k`
user data, with `k ≤ m` and `m - k` at most the number of emitted arguments, calls its method
on its receiver with exactly `m` arguments: the first `m - k` entries of the argument tuple
in order, followed by the `k` user data in the order of registration. The user data passed
are those of the record whatever the emitted arguments are. -/
theorem emitCallback_argument_adaptation (d : Demarshaller) (userdata args : List Value)
    (hd : d.userdata = some userdata)
    (hk : userdata.length ≤ Private.ArgumentCount d.binding)
    (hm : Private.ArgumentCount d.binding - userdata.length ≤ args.length) :
    ∃ c, d.emitCallback args = .ok c
      ∧ c.targets d
      ∧ c.args = args.take (Private.ArgumentCount d.binding - userdata.length) ++ userdata
      ∧ c.args.length = Private.ArgumentCount d.binding
      ∧ c.args.take (Private.ArgumentCount d.binding - userdata.length)
          = args.take (Private.ArgumentCount d.binding - userdata.length)
      ∧ c.args.drop (Private.ArgumentCount d.binding - userdata.length) = userdata := by
  refine ⟨_, d.emitCallback_data userdata args hd hk hm, ⟨rfl, rfl, rfl⟩, rfl, ?_, ?_, ?_⟩
  · simp only [Private.ArgumentCount] at hk hm ⊢
    simp only [List.length_append, List.length_take]
    omega
  · simp only [Private.ArgumentCount] at hk hm ⊢
    rw [List.take_append_of_le_length (by simp; omega), List.take_take]
    simp
  · simp only [Private.ArgumentCount] at hk hm ⊢
    rw [List.drop_append_of_le_length (by simp; omega)]
    rw [List.drop_eq_nil_of_le (by simp)]
    rfl

/-- Witness of C6: the record of `a1` and `CB4` (three parameters) with user datum 15, invoked
on the argument tuple 10, "ahoj", "Foo". -/
theorem emitCallback_argument_adaptation_witness :
    ∃ c, (DemarshallerMethodData Example.sigCB4 Example.a1 Example.CB4 [.int 15]).emitCallback
        [.int 10, .text "ahoj", .text "Foo"] = .ok c
      ∧ c.targets (DemarshallerMethodData Example.sigCB4 Example.a1 Example.CB4 [.int 15])
      ∧ c.args = List.take (Private.ArgumentCount Example.sigCB4 - [Value.int 15].length)
          [.int 10, .text "ahoj", .text "Foo"] ++ [.int 15]
      ∧ c.args.length = Private.ArgumentCount Example.sigCB4
      ∧ c.args.take (Private.ArgumentCount Example.sigCB4 - [Value.int 15].length)
          = List.take (Private.ArgumentCount Example.sigCB4 - [Value.int 15].length)
              [.int 10, .text "ahoj", .text "Foo"]
      ∧ c.args.drop (Private.ArgumentCount Example.sigCB4 - [Value.int 15].length)
          = [.int 15] :=
  emitCallback_argument_adaptation
    (DemarshallerMethodData Example.sigCB4 Example.a1 Example.CB4 [.int 15]) [.int 15]
    [.int 10, .text "ahoj", .text "Foo"] rfl (by decide) (by decide)

/-- C7, arity truncation. For every record of the container that was registered without
user data and whose method has `n` parameters, `n` less than the number of emitted arguments,
an emission in which the container's records can be invoked and their methods neither emit
nor throw returns and makes one call per record; the call of this record, at the position of
the record, passes the first `n` emitted arguments, in order, and nothing else. -/
theorem emitCallback_arity_truncation {σ : Type} (beh : Behaviour σ) (fuel : Nat)
    (args : List Value) (w : World σ)
    (hinv : ∀ d ∈ w.cb.demarshallers, d.invocable args.length = true)
    (hbeh : ∀ d ∈ w.cb.demarshallers, ∀ c, d.emitCallback args = .ok c →
      ∀ s, ∀ a ∈ (beh s c).2, a.isUpdate = true)
    (i : Nat) (d : Demarshaller)
    (hi : w.cb.demarshallers[i]? = some d) (hu : d.userdata = some [])
    (hn : Private.ArgumentCount d.binding < args.length) :
    ∃ w1 evs, emitCallback beh (fuel + 1) args w = .ok w1
      ∧ w1.log = w.log ++ evs
      ∧ (calls evs).length = w.cb.demarshallers.length
      ∧ (calls evs)[i]? = some
          { binding := d.binding, receiver := d.receiver, method := d.method,
            args := args.take (Private.ArgumentCount d.binding) }
      ∧ (args.take (Private.ArgumentCount d.binding)).length
          = Private.ArgumentCount d.binding := by
  obtain ⟨w1, evs, hrun, hlog, hlen, hcall⟩ :=
    emitCallback_call_at beh fuel args w hinv hbeh i d [] hi hu
  refine ⟨w1, evs, hrun, hlog, hlen, ?_, ?_⟩
  · simpa [Private.ArgumentCount] using hcall
  · simp only [List.length_take]
    omega

/-- Witness of C7: the first emission of `main`, at the record of `a1` and `CB2` (two
parameters, no user data, position 1 of the vector). -/
theorem emitCallback_arity_truncation_witness :
    ∃ w1 evs, emitCallback Example.body 1 [.int 10, .text "ahoj", .text "Foo"]
        Example.registered = .ok w1
      ∧ w1.log = Example.registered.log ++ evs
      ∧ (calls evs).length = Example.registered.cb.demarshallers.length
      ∧ (calls evs)[1]? = some
          { binding := Example.sigCB2, receiver := Example.a1, method := Example.CB2,
            args := List.take (Private.ArgumentCount Example.sigCB2)
              [.int 10, .text "ahoj", .text "Foo"] }
      ∧ (List.take (Private.ArgumentCount Example.sigCB2)
          [Value.int 10, .text "ahoj", .text "Foo"]).length
          = Private.ArgumentCount Example.sigCB2 :=
  emitCallback_arity_truncation Example.body 0 [.int 10, .text "ahoj", .text "Foo"]
    Example.registered (by decide) (fun _ _ c _ s => Example.body_isUpdate s c) 1
    (DemarshallerMethodData Example.sigCB2 Example.a1 Example.CB2 []) rfl rfl (by decide)

/-- C8, end-to-end scenario. On an empty container, register receiver `R` with a method `M1`
of three parameters, then `R` with a method `M2` of two parameters, then `R` with a method
`M3` of four parameters and the user datum 5, all with an empty history. When the methods of
`R` neither emit nor throw, the emission of 10, "x", "y" returns and the calls made are
exactly `M1(10, "x", "y")`, `M2(10, "x")`, `M3(10, "x", "y", 5)`, in this order. -/
theorem end_to_end_scenario {σ : Type} (beh : Behaviour σ) (app : σ) (fuel : Nat)
    (R m1 m2 m3 : Nat) (b1 b2 b3 : Binding)
    (h1 : Private.ArgumentCount b1 = 3) (h2 : Private.ArgumentCount b2 = 2)
    (h3 : Private.ArgumentCount b3 = 4)
    (hbeh : ∀ s c, c.receiver = R → ∀ a ∈ (beh s c).2, a.isUpdate = true) :
    ∃ w1, emitCallback beh (fuel + 1) [.int 10, .text "x", .text "y"]
          { cb := ((Callback.empty.registerCallbackMethod b1 R m1 []
              ).registerCallbackMethod b2 R m2 []
              ).registerCallbackMethod b3 R m3 [.int 5],
            app := app, log := [] } = .ok w1
      ∧ calls w1.log =
          [{ binding := b1, receiver := R, method := m1,
             args := [.int 10, .text "x", .text "y"] },
           { binding := b2, receiver := R, method := m2, args := [.int 10, .text "x"] },
           { binding := b3, receiver := R, method := m3,
             args := [.int 10, .text "x", .text "y", .int 5] }] := by
  have hds : (((Callback.empty.registerCallbackMethod b1 R m1 []
      ).registerCallbackMethod b2 R m2 []).registerCallbackMethod b3 R m3 [.int 5]
      ).demarshallers
      = [DemarshallerMethodData b1 R m1 [], DemarshallerMethodData b2 R m2 [],
         DemarshallerMethodData b3 R m3 [.int 5]] := rfl
  have e1 := (DemarshallerMethodData b1 R m1 []).emitCallback_data []
    [.int 10, .text "x", .text "y"] rfl (by simp)
    (by simp only [Private.ArgumentCount, DemarshallerMethodData] at h1 ⊢; simp [h1])
  have e2 := (DemarshallerMethodData b2 R m2 []).emitCallback_data []
    [.int 10, .text "x", .text "y"] rfl (by simp)
    (by simp only [Private.ArgumentCount, DemarshallerMethodData] at h2 ⊢; simp [h2])
  have e3 := (DemarshallerMethodData b3 R m3 [.int 5]).emitCallback_data [.int 5]
    [.int 10, .text "x", .text "y"] rfl
    (by simp only [Private.ArgumentCount, DemarshallerMethodData] at h3 ⊢; simp [h3])
    (by simp only [Private.ArgumentCount, DemarshallerMethodData] at h3 ⊢; simp [h3])
  simp only [Private.ArgumentCount] at h1 h2 h3
  simp only [DemarshallerMethodData, h1, h2, h3, List.length_nil, List.length_singleton,
    Nat.sub_zero, Nat.reduceSub, List.take, List.append_nil, List.cons_append,
    List.nil_append] at e1 e2 e3
  obtain ⟨w1, evs, hrun, hlog, hcalls, -, -⟩ :=
    emitCallback_updates (fun a => a.isUpdate = true) (fun _ h => h) beh fuel
      [.int 10, .text "x", .text "y"]
      { cb := ((Callback.empty.registerCallbackMethod b1 R m1 []
          ).registerCallbackMethod b2 R m2 []).registerCallbackMethod b3 R m3 [.int 5],
        app := app, log := [] }
      (by
        intro d hd
        simp only [hds, List.mem_cons, List.mem_singleton, List.not_mem_nil, or_false] at hd
        rcases hd with rfl | rfl | rfl
        · exact Demarshaller.invocable_of_emitCallback _ _ _ e1
        · exact Demarshaller.invocable_of_emitCallback _ _ _ e2
        · exact Demarshaller.invocable_of_emitCallback _ _ _ e3)
      (by
        intro d hd c hc s
        refine hbeh s c ?_
        rw [(d.targets_of_emitCallback _ c hc).2.1]
        simp only [hds, List.mem_cons, List.mem_singleton, List.not_mem_nil, or_false] at hd
        rcases hd with rfl | rfl | rfl <;> rfl)
  refine ⟨w1, hrun, ?_⟩
  rw [hlog, List.nil_append]
  simp only [hds] at hcalls
  generalize calls evs = cs at hcalls
  cases hcalls with
  | cons c1 hrest =>
    cases hrest with
    | cons c2 hrest =>
      cases hrest with
      | cons c3 hrest =>
        cases hrest
        simp only [DemarshallerMethodData] at c1 c2 c3
        rw [e1] at c1
        rw [e2] at c2
        rw [e3] at c3
        cases c1
        cases c2
        cases c3
        rfl

/-- Witness of C8: receiver `a1` of `example.cpp` with `CB1`, `CB2`, `CB3` as `M1`, `M2`, `M3`
and the method bodies of class `A`. -/
theorem end_to_end_scenario_witness :
    ∃ w1, emitCallback Example.body 1 [.int 10, .text "x", .text "y"]
          { cb := ((Callback.empty.registerCallbackMethod Example.sigCB1 Example.a1 Example.CB1 []
              ).registerCallbackMethod Example.sigCB2 Example.a1 Example.CB2 []
              ).registerCallbackMethod Example.sigCB3 Example.a1 Example.CB3 [.int 5],
            app := (), log := [] } = .ok w1
      ∧ calls w1.log =
          [{ binding := Example.sigCB1, receiver := Example.a1, method := Example.CB1,
             args := [.int 10, .text "x", .text "y"] },
           { binding := Example.sigCB2, receiver := Example.a1, method := Example.CB2,
             args := [.int 10, .text "x"] },
           { binding := Example.sigCB3, receiver := Example.a1, method := Example.CB3,
             args := [.int 10, .text "x", .text "y", .int 5] }] :=
  end_to_end_scenario Example.body () 0 Example.a1 Example.CB1 Example.CB2 Example.CB3
    Example.sigCB1 Example.sigCB2 Example.sigCB3 rfl rfl rfl
    (fun s c _ => Example.body_isUpdate s c)

/-! ## Operations performed by callback methods during an emission -/

theorem Callback.eq_of_demarshallers (a b : Callback)
    (h : a.demarshallers = b.demarshallers) : a = b := by
  cases a
  cases b
  simp_all

/-- C11, no-op removal. When no record of the container has the receiver `R` and the method
`M`, `unregisterCallbackMethod(R, M)` returns the container as it was: the same records in
the same order, the same length. The operation is a total function, it has no failure
result; on the empty container it returns the empty container. -/
theorem unregisterCallbackMethod_absent (cb : Callback) (b : Binding) (r m : Nat)
    (h : ∀ d ∈ cb.demarshallers, ¬(d.binding = b ∧ d.receiver = r ∧ d.method = m)) :
    cb.unregisterCallbackMethod b r m = cb
      ∧ (cb.unregisterCallbackMethod b r m).demarshallers = cb.demarshallers
      ∧ (cb.unregisterCallbackMethod b r m).demarshallers.length = cb.demarshallers.length
      ∧ Callback.empty.unregisterCallbackMethod b r m = Callback.empty := by
  have hvec : (cb.unregisterCallbackMethod b r m).demarshallers = cb.demarshallers := by
    rw [unregisterCallbackMethod_demarshallers, List.filter_eq_self]
    intro d hd
    show (!decide (d.binding = b ∧ d.receiver = r ∧ d.method = m)) = true
    rw [decide_eq_false (h d hd)]
    rfl
  exact ⟨Callback.eq_of_demarshallers _ _ hvec, hvec, by rw [hvec], rfl⟩

/-- Witness of C11: the container of `main` after the ten registrations and the key of
receiver `a1` with a member pointer, 9, that no record has. -/
theorem unregisterCallbackMethod_absent_witness :
    Example.registered.cb.unregisterCallbackMethod Example.sigCB1 Example.a1 9
        = Example.registered.cb
      ∧ (Example.registered.cb.unregisterCallbackMethod Example.sigCB1 Example.a1
          9).demarshallers = Example.registered.cb.demarshallers
      ∧ (Example.registered.cb.unregisterCallbackMethod Example.sigCB1 Example.a1
          9).demarshallers.length = Example.registered.cb.demarshallers.length
      ∧ Callback.empty.unregisterCallbackMethod Example.sigCB1 Example.a1 9
        = Callback.empty :=
  unregisterCallbackMethod_absent Example.registered.cb Example.sigCB1 Example.a1 9
    (by decide)

/-- C12, record identity. `a.isEqual(b)` is true exactly when `b` has the template arguments
of `a` (receiver class and method type), the same receiver and the same method. The user
data of either record, present or absent, do not influence the result, and a record with
other template arguments is never equal. -/
theorem isEqual_iff_identity (a b : Demarshaller) :
    (a.isEqual b = true
        ↔ b.binding = a.binding ∧ a.receiver = b.receiver ∧ a.method = b.method)
      ∧ (∀ ua ub : Option (List Value),
          Demarshaller.isEqual { a with userdata := ua } { b with userdata := ub }
            = a.isEqual b)
      ∧ (b.binding ≠ a.binding → a.isEqual b = false) := by
  refine ⟨?_, ?_, ?_⟩
  · simp [Demarshaller.isEqual, and_assoc]
  · intro ua ub
    rfl
  · intro hne
    simp [Demarshaller.isEqual, hne]

/-- C18, register-then-unregister round trip. Unregistering `(R, M)` after registering
`(R, M)` with any user data gives the container that unregistering `(R, M)` gives without
the registration; when the container holds no record of `(R, M)`, registering and then
unregistering restores it exactly. -/
theorem register_then_unregister (cb : Callback) (b : Binding) (r m : Nat)
    (udata : List Value) :
    (cb.registerCallbackMethod b r m udata).unregisterCallbackMethod b r m
        = cb.unregisterCallbackMethod b r m
      ∧ ((∀ d ∈ cb.demarshallers, ¬(d.binding = b ∧ d.receiver = r ∧ d.method = m)) →
          (cb.registerCallbackMethod b r m udata).unregisterCallbackMethod b r m = cb) := by
  have hstep : (cb.registerCallbackMethod b r m udata).unregisterCallbackMethod b r m
      = cb.unregisterCallbackMethod b r m := by
    simp [Callback.unregisterCallbackMethod, Callback.removeDemarshaller,
      Callback.registerCallbackMethod, Callback.appendDemarshaller, List.filter_append,
      Demarshaller.isEqual, DemarshallerMethod, DemarshallerMethodData]
  refine ⟨hstep, ?_⟩
  intro h
  rw [hstep]
  cases cb with
  | mk ds =>
    simp only [Callback.unregisterCallbackMethod, Callback.removeDemarshaller,
      Demarshaller.isEqual_key, Callback.mk.injEq, List.filter_eq_self]
    intro d hd
    show (!decide (d.binding = b ∧ d.receiver = r ∧ d.method = m)) = true
    rw [decide_eq_false (h d hd)]
    rfl

/-- C19, unregistration is idempotent and order-independent. Unregistering the same key
twice gives the container that unregistering it once gives, and unregistering two keys
gives the same container in either order. -/
theorem unregister_idempotent_and_commutes (cb : Callback) (b1 b2 : Binding)
    (r1 m1 r2 m2 : Nat) :
    (cb.unregisterCallbackMethod b1 r1 m1).unregisterCallbackMethod b1 r1 m1
        = cb.unregisterCallbackMethod b1 r1 m1
      ∧ (cb.unregisterCallbackMethod b1 r1 m1).unregisterCallbackMethod b2 r2 m2
        = (cb.unregisterCallbackMethod b2 r2 m2).unregisterCallbackMethod b1 r1 m1 := by
  constructor
  · simp only [Callback.unregisterCallbackMethod, Callback.removeDemarshaller,
      List.filter_filter, Bool.and_self]
  · simp only [Callback.unregisterCallbackMethod, Callback.removeDemarshaller,
      List.filter_filter, Callback.mk.injEq]
    apply List.filter_congr
    intro d _
    rw [Bool.and_comm]

/-! ## The index sequence generator -/

/-- C20, index sequence generator. For every natural number `N` the type
`GenSequence<N>::SeqType` is the sequence 0, 1, ..., `N - 1` in increasing order, empty for
`N = 0`: it has `N` entries and its entry at position `i` is `i`. Reading a tuple of at
least `N` entries at these indices gives its first `N` entries in order, and a record with
`k` user data whose method has `N + k` parameters is invoked by `callMethod` with the index
sequences 0..`N - 1` for the argument tuple and 0..`k - 1` for the user data. -/
theorem GenSequence_SeqType (N : Nat) :
    Private.GenSequence N [] = List.range N
      ∧ (Private.GenSequence N []).length = N
      ∧ (∀ i : Nat, (Private.GenSequence N [])[i]? = if i < N then some i else none)
      ∧ (∀ tuple : List Value, N ≤ tuple.length →
          getAll tuple (Private.GenSequence N []) = some (tuple.take N))
      ∧ (∀ (b : Binding) (r m : Nat) (udata args : List Value),
          Private.ArgumentCount b = N + udata.length →
          (DemarshallerMethodData b r m udata).emitCallback args
            = (DemarshallerMethodData b r m udata).callMethod
                (List.range N) (List.range udata.length) args udata) := by
  have hseq : Private.GenSequence N [] = List.range N := by
    rw [Private.GenSequence_eq, List.append_nil]
  refine ⟨hseq, by rw [hseq, List.length_range], ?_, ?_, ?_⟩
  · intro i
    rw [hseq]
    by_cases hi : i < N
    · rw [if_pos hi, List.getElem?_range hi]
    · rw [if_neg hi, List.getElem?_eq_none (by rw [List.length_range]; omega)]
  · intro tuple htuple
    rw [hseq, getAll_range tuple N htuple]
  · intro b r m udata args hcount
    have hk : udata.length ≤ Private.ArgumentCount b := by omega
    have hsub : Private.ArgumentCount b - udata.length = N := by omega
    simp only [Demarshaller.emitCallback, DemarshallerMethodData, hk, if_true, hsub,
      Private.GenSequence_eq, List.append_nil]

/-! ## The run of `example.cpp` -/

/-- C15, the example program. After the ten registrations of `main`, the first emission, of
10, "ahoj", "Foo", returns and makes the ten calls in the order of registration, each with
its adapted arguments. After `unregisterCallbackMethod(&a1, &A::CB2)` the second emission,
of 11, "ahoj2", "Foo2", returns and makes exactly seven calls: `CB1`, `CB3`, `CB4` of `a1`,
then `CB1`, `CB2`, `CB3`, `CB4` of `a2`; the record of `a1` and `CB2` and both records of
`CB5` are no longer in the vector. -/
theorem example_program_run (fuel fuel2 : Nat) :
    ∃ w1 w2 : World Unit,
      emitCallback Example.body (fuel + 1) [.int 10, .text "ahoj", .text "Foo"]
          Example.registered = .ok w1
      ∧ calls w1.log =
          [{ binding := Example.sigCB1, receiver := Example.a1, method := Example.CB1,
             args := [.int 10, .text "ahoj", .text "Foo"] },
           { binding := Example.sigCB2, receiver := Example.a1, method := Example.CB2,
             args := [.int 10, .text "ahoj"] },
           { binding := Example.sigCB3, receiver := Example.a1, method := Example.CB3,
             args := [.int 10, .text "ahoj", .text "Foo", .int 13] },
           { binding := Example.sigCB4, receiver := Example.a1, method := Example.CB4,
             args := [.int 10, .text "ahoj", .int 15] },
           { binding := Example.sigCB5, receiver := Example.a1, method := Example.CB5,
             args := [.pointer Example.cbAddr] },
           { binding := Example.sigCB1, receiver := Example.a2, method := Example.CB1,
             args := [.int 10, .text "ahoj", .text "Foo"] },
           { binding := Example.sigCB2, receiver := Example.a2, method := Example.CB2,
             args := [.int 10, .text "ahoj"] },
           { binding := Example.sigCB3, receiver := Example.a2, method := Example.CB3,
             args := [.int 10, .text "ahoj", .text "Foo", .int 210] },
           { binding := Example.sigCB4, receiver := Example.a2, method := Example.CB4,
             args := [.int 10, .text "ahoj", .int 120] },
           { binding := Example.sigCB5, receiver := Example.a2, method := Example.CB5,
             args := [.pointer Example.cbAddr] }]
      ∧ emitCallback Example.body (fuel2 + 1) [.int 11, .text "ahoj2", .text "Foo2"]
          { cb := w1.cb.unregisterCallbackMethod Example.sigCB2 Example.a1 Example.CB2,
            app := w1.app, log := [] } = .ok w2
      ∧ calls w2.log =
          [{ binding := Example.sigCB1, receiver := Example.a1, method := Example.CB1,
             args := [.int 11, .text "ahoj2", .text "Foo2"] },
           { binding := Example.sigCB3, receiver := Example.a1, method := Example.CB3,
             args := [.int 11, .text "ahoj2", .text "Foo2", .int 13] },
           { binding := Example.sigCB4, receiver := Example.a1, method := Example.CB4,
             args := [.int 11, .text "ahoj2", .int 15] },
           { binding := Example.sigCB1, receiver := Example.a2, method := Example.CB1,
             args := [.int 11, .text "ahoj2", .text "Foo2"] },
           { binding := Example.sigCB2, receiver := Example.a2, method := Example.CB2,
             args := [.int 11, .text "ahoj2"] },
           { binding := Example.sigCB3, receiver := Example.a2, method := Example.CB3,
             args := [.int 11, .text "ahoj2", .text "Foo2", .int 210] },
           { binding := Example.sigCB4, receiver := Example.a2, method := Example.CB4,
             args := [.int 11, .text "ahoj2", .int 120] }]
      ∧ w2.cb.demarshallers =
          [DemarshallerMethodData Example.sigCB1 Example.a1 Example.CB1 [],
           DemarshallerMethodData Example.sigCB3 Example.a1 Example.CB3 [.int 13],
           DemarshallerMethodData Example.sigCB4 Example.a1 Example.CB4 [.int 15],
           DemarshallerMethodData Example.sigCB1 Example.a2 Example.CB1 [],
           DemarshallerMethodData Example.sigCB2 Example.a2 Example.CB2 [],
           DemarshallerMethodData Example.sigCB3 Example.a2 Example.CB3 [.int 210],
           DemarshallerMethodData Example.sigCB4 Example.a2 Example.CB4 [.int 120]] :=
  ⟨_, _, rfl, rfl, rfl, rfl, rfl⟩

/-! ## Faults during an emission -/

theorem runActionsTraced_outcome {σ : Type}
    (emitT : List Value → World σ → World σ × Option Fault)
    (emit : List Value → World σ → Except Fault (World σ))
    (h : ∀ args w, outcome (emitT args w) = emit args w) (acts : List Action) (w : World σ) :
    outcome (runActionsTraced emitT acts w) = runActions emit acts w := by
  induction acts generalizing w with
  | nil => rfl
  | cons a rest ih =>
    cases a with
    | registerCallbackMethod b r m ud => simp only [runActionsTraced, runActions, ih]
    | unregisterCallbackMethod b r m => simp only [runActionsTraced, runActions, ih]
    | emitCallback args =>
      simp only [runActionsTraced, runActions, ← h]
      rcases emitT args { w with log := w.log ++ [Event.action (Action.emitCallback args)] }
        with ⟨w2, _ | e⟩
      · exact ih w2
      · rfl
    | raise e => rfl

theorem emitLoopTraced_outcome {σ : Type} (beh : Behaviour σ)
    (emitT : List Value → World σ → World σ × Option Fault)
    (emit : List Value → World σ → Except Fault (World σ))
    (h : ∀ args w, outcome (emitT args w) = emit args w) (args : List Value)
    (ds : List Demarshaller) (w : World σ) :
    outcome (emitLoopTraced beh emitT args ds w) = emitLoop beh emit args ds w := by
  induction ds generalizing w with
  | nil => rfl
  | cons d ds ih =>
    simp only [emitLoopTraced, emitLoop]
    cases d.emitCallback args with
    | error e => rfl
    | ok c =>
      simp only [← runActionsTraced_outcome emitT emit h]
      rcases runActionsTraced emitT (beh w.app c).2
          { w with app := (beh w.app c).1, log := w.log ++ [Event.call c] } with ⟨w1, _ | e⟩
      · exact ih w1
      · rfl

theorem emitCallbackTraced_outcome {σ : Type} (beh : Behaviour σ) (fuel : Nat)
    (args : List Value) (w : World σ) :
    outcome (emitCallbackTraced beh fuel args w) = emitCallback beh fuel args w := by
  induction fuel generalizing args w with
  | zero => rfl
  | succ fuel ih =>
    exact emitLoopTraced_outcome beh (emitCallbackTraced beh fuel) (emitCallback beh fuel)
      ih args w.cb.demarshallers w

theorem outcome_eq_ok {σ : Type} (r : World σ × Option Fault) (w : World σ)
    (h : outcome r = .ok w) : r = (w, none) := by
  rcases r with ⟨w1, _ | e⟩
  · simp only [outcome, Except.ok.injEq] at h
    rw [h]
  · simp [outcome] at h

theorem applyAction_curried (cb : Callback) (a : Action)
    (h : ∀ d ∈ cb.demarshallers, d.userdata.isSome = true) :
    ∀ d ∈ (applyAction cb a).demarshallers, d.userdata.isSome = true := by
  intro d hd
  cases a with
  | registerCallbackMethod b r m ud =>
    simp only [applyAction, Callback.registerCallbackMethod, Callback.appendDemarshaller,
      List.mem_append, List.mem_singleton] at hd
    rcases hd with hd | rfl
    · exact h d hd
    · rfl
  | unregisterCallbackMethod b r m =>
    simp only [applyAction, Callback.unregisterCallbackMethod,
      Callback.removeDemarshaller] at hd
    exact h d (List.mem_filter.mp hd).1
  | emitCallback args => exact h d hd
  | raise e => exact h d hd

theorem runActionsTraced_curried {σ : Type}
    (emitT : List Value → World σ → World σ × Option Fault)
    (hemit : ∀ args w, (∀ d ∈ w.cb.demarshallers, d.userdata.isSome = true) →
      (∀ d ∈ (emitT args w).1.cb.demarshallers, d.userdata.isSome = true)
        ∧ (emitT args w).2 ≠ some Fault.assertFailed)
    (acts : List Action) (w : World σ)
    (hw : ∀ d ∈ w.cb.demarshallers, d.userdata.isSome = true) :
    (∀ d ∈ (runActionsTraced emitT acts w).1.cb.demarshallers, d.userdata.isSome = true)
      ∧ (runActionsTraced emitT acts w).2 ≠ some Fault.assertFailed := by
  induction acts generalizing w with
  | nil => exact ⟨hw, by simp [runActionsTraced]⟩
  | cons a rest ih =>
    cases a with
    | registerCallbackMethod b r m ud =>
      simp only [runActionsTraced]
      exact ih _ (applyAction_curried w.cb (.registerCallbackMethod b r m ud) hw)
    | unregisterCallbackMethod b r m =>
      simp only [runActionsTraced]
      exact ih _ (applyAction_curried w.cb (.unregisterCallbackMethod b r m) hw)
    | emitCallback args =>
      simp only [runActionsTraced]
      have hstep := hemit args
        { w with log := w.log ++ [Event.action (Action.emitCallback args)] } hw
      rcases hE : emitT args
          { w with log := w.log ++ [Event.action (Action.emitCallback args)] }
        with ⟨w2, _ | e⟩
      · rw [hE] at hstep
        exact ih w2 hstep.1
      · rw [hE] at hstep
        exact hstep
    | raise e =>
      simp only [runActionsTraced]
      exact ⟨hw, by simp⟩

theorem emitLoopTraced_curried {σ : Type} (beh : Behaviour σ)
    (emitT : List Value → World σ → World σ × Option Fault)
    (hemit : ∀ args w, (∀ d ∈ w.cb.demarshallers, d.userdata.isSome = true) →
      (∀ d ∈ (emitT args w).1.cb.demarshallers, d.userdata.isSome = true)
        ∧ (emitT args w).2 ≠ some Fault.assertFailed)
    (args : List Value) (ds : List Demarshaller) (w : World σ)
    (hds : ∀ d ∈ ds, d.userdata.isSome = true)
    (hw : ∀ d ∈ w.cb.demarshallers, d.userdata.isSome = true) :
    (∀ d ∈ (emitLoopTraced beh emitT args ds w).1.cb.demarshallers,
        d.userdata.isSome = true)
      ∧ (emitLoopTraced beh emitT args ds w).2 ≠ some Fault.assertFailed := by
  induction ds generalizing w with
  | nil => exact ⟨hw, by simp [emitLoopTraced]⟩
  | cons d ds ih =>
    have hd := hds d (List.mem_cons_self _ _)
    have hrest : ∀ x ∈ ds, x.userdata.isSome = true :=
      fun x hx => hds x (List.mem_cons_of_mem _ hx)
    simp only [emitLoopTraced]
    cases hc : d.emitCallback args with
    | error e =>
      refine ⟨hw, ?_⟩
      intro hfault
      simp only [Option.some.injEq] at hfault
      subst hfault
      unfold Demarshaller.emitCallback at hc
      cases hu : d.userdata with
      | none => simp [hu] at hd
      | some u =>
        simp only [hu, Demarshaller.callMethod] at hc
        split at hc
        · split at hc <;> cases hc
        · cases hc
    | ok c =>
      dsimp only
      have hstep := runActionsTraced_curried emitT hemit (beh w.app c).2
        { w with app := (beh w.app c).1, log := w.log ++ [Event.call c] } hw
      rcases hR : runActionsTraced emitT (beh w.app c).2
          { w with app := (beh w.app c).1, log := w.log ++ [Event.call c] }
        with ⟨w1, _ | e⟩
      · rw [hR] at hstep
        exact ih w1 hrest hstep.1
      · rw [hR] at hstep
        exact hstep

theorem emitCallbackTraced_curried {σ : Type} (beh : Behaviour σ) (fuel : Nat)
    (args : List Value) (w : World σ)
    (hw : ∀ d ∈ w.cb.demarshallers, d.userdata.isSome = true) :
    (∀ d ∈ (emitCallbackTraced beh fuel args w).1.cb.demarshallers,
        d.userdata.isSome = true)
      ∧ (emitCallbackTraced beh fuel args w).2 ≠ some Fault.assertFailed := by
  induction fuel generalizing args w with
  | zero => exact ⟨hw, by simp [emitCallbackTraced]⟩
  | succ fuel ih =>
    exact emitLoopTraced_curried beh (emitCallbackTraced beh fuel) ih args
      w.cb.demarshallers w hw hw

/-- C16, bare records are never invoked. Run any sequence of `registerCallbackMethod`,
`unregisterCallbackMethod` and `emitCallback` calls on an empty container, with any callback
methods, which may perform such calls themselves during an emission. In the state reached,
whether the run returned or a fault stopped it, every stored record carries user data
(possibly none of them): it is a `DemarshallerMethodData`, the bare key of an unregistration
is never stored. The fault, if any, is not the `assert(false)` of
`DemarshallerMethod::emitCallback`. -/
theorem bare_records_never_invoked {σ : Type} (beh : Behaviour σ) (fuel : Nat)
    (ops : List Action) (app : σ) :
    (runActionsTraced (emitCallbackTraced beh fuel) ops
        { cb := Callback.empty, app := app, log := [] }).1.cb.demarshallers.all
          (fun d => d.userdata.isSome) = true
      ∧ (runActionsTraced (emitCallbackTraced beh fuel) ops
          { cb := Callback.empty, app := app, log := [] }).2 ≠ some Fault.assertFailed
      ∧ runActions (emitCallback beh fuel) ops
          { cb := Callback.empty, app := app, log := [] } ≠ .error Fault.assertFailed := by
  have hrun := runActionsTraced_curried (emitCallbackTraced beh fuel)
    (fun args w hw => emitCallbackTraced_curried beh fuel args w hw) ops
    { cb := Callback.empty, app := app, log := [] }
    (by intro d hd; simp [Callback.empty] at hd)
  refine ⟨List.all_eq_true.mpr hrun.1, hrun.2, ?_⟩
  rw [← runActionsTraced_outcome (emitCallbackTraced beh fuel) (emitCallback beh fuel)
    (emitCallbackTraced_outcome beh fuel)]
  intro hbad
  apply hrun.2
  rcases hR : runActionsTraced (emitCallbackTraced beh fuel) ops
      { cb := Callback.empty, app := app, log := [] } with ⟨w1, _ | e⟩
  · rw [hR] at hbad
    simp [outcome] at hbad
  · rw [hR] at hbad
    simp only [outcome, Except.error.injEq] at hbad
    rw [hbad]

theorem runActionsTraced_frame {σ : Type}
    (emitT : List Value → World σ → World σ × Option Fault) (cb : Callback)
    (hemit : ∀ args w, w.cb = cb → (emitT args w).1.cb = cb)
    (acts : List Action) (w : World σ) (hacts : ∀ a ∈ acts, a.isUpdate = false)
    (hw : w.cb = cb) :
    (runActionsTraced emitT acts w).1.cb = cb := by
  induction acts generalizing w with
  | nil => exact hw
  | cons a rest ih =>
    have ha := hacts a (List.mem_cons_self _ _)
    have hrest : ∀ x ∈ rest, x.isUpdate = false :=
      fun x hx => hacts x (List.mem_cons_of_mem _ hx)
    cases a with
    | registerCallbackMethod b r m ud => simp [Action.isUpdate] at ha
    | unregisterCallbackMethod b r m => simp [Action.isUpdate] at ha
    | emitCallback args =>
      simp only [runActionsTraced]
      have hstep := hemit args
        { w with log := w.log ++ [Event.action (Action.emitCallback args)] } hw
      rcases hE : emitT args
          { w with log := w.log ++ [Event.action (Action.emitCallback args)] }
        with ⟨w2, _ | e⟩
      · rw [hE] at hstep
        exact ih w2 hrest hstep
      · rw [hE] at hstep
        exact hstep
    | raise e =>
      simp only [runActionsTraced]
      exact hw

theorem emitLoopTraced_frame {σ : Type} (beh : Behaviour σ)
    (emitT : List Value → World σ → World σ × Option Fault) (cb : Callback)
    (hemit : ∀ args w, w.cb = cb → (emitT args w).1.cb = cb)
    (args : List Value) (ds : List Demarshaller) (w : World σ)
    (hbeh : ∀ d ∈ ds, ∀ c, c.targets d → ∀ s, ∀ a ∈ (beh s c).2, a.isUpdate = false)
    (hw : w.cb = cb) :
    (emitLoopTraced beh emitT args ds w).1.cb = cb := by
  induction ds generalizing w with
  | nil => exact hw
  | cons d ds ih =>
    simp only [emitLoopTraced]
    cases hc : d.emitCallback args with
    | error e => exact hw
    | ok c =>
      dsimp only
      have hstep := runActionsTraced_frame emitT cb hemit (beh w.app c).2
        { w with app := (beh w.app c).1, log := w.log ++ [Event.call c] }
        (hbeh d (List.mem_cons_self _ _) c (d.targets_of_emitCallback args c hc) w.app) hw
      rcases hR : runActionsTraced emitT (beh w.app c).2
          { w with app := (beh w.app c).1, log := w.log ++ [Event.call c] }
        with ⟨w1, _ | e⟩
      · rw [hR] at hstep
        exact ih w1 (fun x hx => hbeh x (List.mem_cons_of_mem _ hx)) hstep
      · rw [hR] at hstep
        exact hstep

theorem emitCallbackTraced_frame {σ : Type} (beh : Behaviour σ) (cb : Callback)
    (hbeh : ∀ d ∈ cb.demarshallers, ∀ c, c.targets d →
      ∀ s, ∀ a ∈ (beh s c).2, a.isUpdate = false)
    (fuel : Nat) (args : List Value) (w : World σ) (hw : w.cb = cb) :
    (emitCallbackTraced beh fuel args w).1.cb = cb := by
  induction fuel generalizing args w with
  | zero => exact hw
  | succ fuel ih =>
    exact emitLoopTraced_frame beh (emitCallbackTraced beh fuel) cb ih args
      w.cb.demarshallers w (by rw [hw]; exact hbeh) hw

/-- C17, emission does not mutate the container by itself. When no callback method of a
record of the container calls `registerCallbackMethod` or `unregisterCallbackMethod` (the
methods may emit the callback again or throw), the vector after `emitCallback` is the
vector before it: in the state reached, whether the emission returned or a fault stopped
it, and so in the state that a returning emission returns. When moreover the records can be
invoked and their methods perform no operation at all, the emission returns. -/
theorem emitCallback_frame {σ : Type} (beh : Behaviour σ) (fuel : Nat)
    (args : List Value) (w : World σ)
    (hbeh : ∀ d ∈ w.cb.demarshallers, ∀ c, c.targets d →
      ∀ s, ∀ a ∈ (beh s c).2, a.isUpdate = false) :
    (emitCallbackTraced beh fuel args w).1.cb = w.cb
      ∧ (∀ w1, emitCallback beh fuel args w = .ok w1 → w1.cb = w.cb)
      ∧ ((∀ d ∈ w.cb.demarshallers, d.invocable args.length = true) →
          (∀ d ∈ w.cb.demarshallers, ∀ c, c.targets d → ∀ s, (beh s c).2 = []) →
          ∃ w1, emitCallback beh (fuel + 1) args w = .ok w1 ∧ w1.cb = w.cb) := by
  have hT : ∀ n, (emitCallbackTraced beh n args w).1.cb = w.cb :=
    fun n => emitCallbackTraced_frame beh w.cb hbeh n args w rfl
  refine ⟨hT fuel, ?_, ?_⟩
  · intro w1 hrun
    rw [← emitCallbackTraced_outcome] at hrun
    have hres := outcome_eq_ok _ _ hrun
    have hcb := hT fuel
    rw [hres] at hcb
    exact hcb
  · intro hinv hquiet
    obtain ⟨w1, evs, hrun, -, -, -, -⟩ :=
      emitCallback_updates (fun _ => False) (fun _ h => h.elim) beh fuel args w hinv
        (fun d hd c hc s a ha => by
          rw [hquiet d hd c (d.targets_of_emitCallback args c hc) s] at ha
          cases ha)
    refine ⟨w1, hrun, ?_⟩
    rw [← emitCallbackTraced_outcome] at hrun
    have hres := outcome_eq_ok _ _ hrun
    have hcb := hT (fuel + 1)
    rw [hres] at hcb
    exact hcb

theorem Example.reemitting_not_isUpdate (s : Nat) (c : Call) :
    ∀ a ∈ (Example.reemitting s c).2, a.isUpdate = false := by
  intro a ha
  unfold Example.reemitting at ha
  split_ifs at ha
  · simp only [List.mem_singleton] at ha
    subst ha
    rfl
  · simp at ha

/-- Witness of C17: the container of `main` after the ten registrations, with the method body
`reemitting`, which emits the callback again during the emission, and nesting depth 2. -/
theorem emitCallback_frame_witness :
    (emitCallbackTraced Example.reemitting 2 [.int 10, .text "ahoj", .text "Foo"]
        { cb := Example.registered.cb, app := 0, log := [] }).1.cb = Example.registered.cb
      ∧ (∀ w1, emitCallback Example.reemitting 2 [.int 10, .text "ahoj", .text "Foo"]
            { cb := Example.registered.cb, app := 0, log := [] } = .ok w1 →
          w1.cb = Example.registered.cb)
      ∧ ((∀ d ∈ Example.registered.cb.demarshallers, d.invocable 3 = true) →
          (∀ d ∈ Example.registered.cb.demarshallers, ∀ c, c.targets d →
            ∀ s, (Example.reemitting s c).2 = []) →
          ∃ w1, emitCallback Example.reemitting (2 + 1) [.int 10, .text "ahoj", .text "Foo"]
              { cb := Example.registered.cb, app := 0, log := [] } = .ok w1
            ∧ w1.cb = Example.registered.cb) :=
  emitCallback_frame Example.reemitting 2 [.int 10, .text "ahoj", .text "Foo"]
    { cb := Example.registered.cb, app := 0, log := [] }
    (fun _ _ c _ s => Example.reemitting_not_isUpdate s c)

theorem emitLoopTraced_append {σ : Type} (beh : Behaviour σ)
    (emitT : List Value → World σ → World σ × Option Fault) (args : List Value)
    (pre rest : List Demarshaller) (w w1 : World σ)
    (h : emitLoopTraced beh emitT args pre w = (w1, none)) :
    emitLoopTraced beh emitT args (pre ++ rest) w = emitLoopTraced beh emitT args rest w1 := by
  induction pre generalizing w with
  | nil =>
    simp only [emitLoopTraced, Prod.mk.injEq, and_true] at h
    rw [h]
    rfl
  | cons d pre ih =>
    simp only [List.cons_append, emitLoopTraced] at h ⊢
    cases hc : d.emitCallback args with
    | error e => rw [hc] at h; simp at h
    | ok c =>
      rw [hc] at h
      dsimp only at h ⊢
      rcases hR : runActionsTraced emitT (beh w.app c).2
          { w with app := (beh w.app c).1, log := w.log ++ [Event.call c] }
        with ⟨w2, _ | e⟩
      · rw [hR] at h
        exact ih w2 h
      · rw [hR] at h
        simp at h

theorem emitLoopTraced_updates {σ : Type} (P : Action → Prop)
    (hP : ∀ a, P a → a.isUpdate = true) (beh : Behaviour σ)
    (emitT : List Value → World σ → World σ × Option Fault)
    (args : List Value) (ds : List Demarshaller) (w : World σ)
    (hinv : ∀ d ∈ ds, d.invocable args.length = true)
    (hbeh : ∀ d ∈ ds, ∀ c, d.emitCallback args = .ok c →
      ∀ s, ∀ a ∈ (beh s c).2, P a) :
    ∃ w1 evs, emitLoopTraced beh emitT args ds w = (w1, none)
      ∧ w1.log = w.log ++ evs
      ∧ List.Forall₂ (fun d c => d.emitCallback args = .ok c) ds (calls evs)
      ∧ w1.cb = applyActions w.cb (actions evs)
      ∧ ∀ a ∈ actions evs, P a := by
  obtain ⟨w1, evs, hrun, hrest⟩ :=
    emitLoop_updates P hP beh (fun xs x => outcome (emitT xs x)) args ds w hinv hbeh
  refine ⟨w1, evs, ?_, hrest⟩
  apply outcome_eq_ok
  rw [emitLoopTraced_outcome beh emitT (fun xs x => outcome (emitT xs x)) (fun _ _ => rfl)]
  exact hrun

theorem runActionsTraced_raise {σ : Type}
    (emitT : List Value → World σ → World σ × Option Fault)
    (acts rest : List Action) (e : Nat) (w : World σ)
    (h : ∀ a ∈ acts, a.isUpdate = true) :
    runActionsTraced emitT (acts ++ Action.raise e :: rest) w =
      ({ cb := applyActions w.cb acts, app := w.app,
         log := w.log ++ acts.map Event.action ++ [Event.action (Action.raise e)] },
       some (Fault.thrown e)) := by
  induction acts generalizing w with
  | nil => simp [runActionsTraced, applyActions]
  | cons a acts ih =>
    have hrest : ∀ x ∈ acts, x.isUpdate = true := fun x hx => h x (List.mem_cons_of_mem _ hx)
    have ha := h a (List.mem_cons_self _ _)
    cases a with
    | registerCallbackMethod b r m ud =>
      simp [runActionsTraced, ih _ hrest, applyActions, applyAction]
    | unregisterCallbackMethod b r m =>
      simp [runActionsTraced, ih _ hrest, applyActions, applyAction]
    | emitCallback args => simp [Action.isUpdate] at ha
    | raise e2 => simp [Action.isUpdate] at ha

/-- C14, listener failure propagates. Let the vector be the records `pre`, then `d`, then
`post`, where the records of `pre` can be invoked and their methods perform nothing but
registrations and unregistrations, and the method of `d` throws the exception `e`, after
registrations and unregistrations at most. Then `emitCallback` fails with the exception `e`;
in the state reached the calls made are those of the records of `pre`, each once and in
order, followed by the call of `d`, and no record of `post` has been called. -/
theorem listener_failure_propagates {σ : Type} (beh : Behaviour σ) (fuel : Nat)
    (args : List Value) (w : World σ) (pre post : List Demarshaller) (d : Demarshaller)
    (c : Call) (e : Nat)
    (hvec : w.cb.demarshallers = pre ++ d :: post)
    (hinv : ∀ x ∈ pre, x.invocable args.length = true)
    (hpre : ∀ x ∈ pre, ∀ cx, x.emitCallback args = .ok cx →
      ∀ s, ∀ a ∈ (beh s cx).2, a.isUpdate = true)
    (hc : d.emitCallback args = .ok c)
    (hfail : ∀ s, ∃ acts rest, (beh s c).2 = acts ++ Action.raise e :: rest
      ∧ ∀ a ∈ acts, a.isUpdate = true) :
    emitCallback beh (fuel + 1) args w = .error (Fault.thrown e)
      ∧ ∃ w2 evs, emitCallbackTraced beh (fuel + 1) args w = (w2, some (Fault.thrown e))
          ∧ w2.log = w.log ++ evs
          ∧ (calls evs).length = pre.length + 1
          ∧ List.Forall₂ (fun x cx => x.emitCallback args = .ok cx) (pre ++ [d])
              (calls evs) := by
  obtain ⟨w1, evs, hrun, hlog, hcalls, -, -⟩ :=
    emitLoopTraced_updates (fun a => a.isUpdate = true) (fun _ h => h) beh
      (emitCallbackTraced beh fuel) args pre w hinv hpre
  obtain ⟨acts, rest, hbody, hacts⟩ := hfail w1.app
  have hT : emitCallbackTraced beh (fuel + 1) args w =
      ({ cb := applyActions w1.cb acts, app := (beh w1.app c).1,
         log := w1.log ++ [Event.call c] ++ acts.map Event.action
           ++ [Event.action (Action.raise e)] },
       some (Fault.thrown e)) := by
    show emitLoopTraced beh (emitCallbackTraced beh fuel) args w.cb.demarshallers w = _
    rw [hvec, emitLoopTraced_append beh _ args pre (d :: post) w w1 hrun]
    simp only [emitLoopTraced, hc, hbody,
      runActionsTraced_raise (emitCallbackTraced beh fuel) acts rest e _ hacts]
  have hcalls2 : calls (evs ++ (Event.call c :: (acts.map Event.action
      ++ [Event.action (Action.raise e)]))) = calls evs ++ [c] := by
    simp [calls_append, calls, calls_map_action]
  refine ⟨?_, _, evs ++ (Event.call c :: (acts.map Event.action
      ++ [Event.action (Action.raise e)])), hT, ?_, ?_, ?_⟩
  · rw [← emitCallbackTraced_outcome, hT]
    rfl
  · simp [hlog]
  · rw [hcalls2, List.length_append, hcalls.length_eq]
    rfl
  · rw [hcalls2]
    exact List.rel_append hcalls (List.Forall₂.cons hc List.Forall₂.nil)

/-- Witness of C14: the container of `main` after the ten registrations, with method bodies
of which `CB2` throws the exception 7; `pre` is the record of `a1` and `CB1`, and `d` the
record of `a1` and `CB2`. -/
theorem listener_failure_propagates_witness :
    emitCallback Example.failing 1 [.int 10, .text "ahoj", .text "Foo"] Example.registered
        = .error (Fault.thrown 7)
      ∧ ∃ w2 evs, emitCallbackTraced Example.failing 1 [.int 10, .text "ahoj", .text "Foo"]
            Example.registered = (w2, some (Fault.thrown 7))
          ∧ w2.log = Example.registered.log ++ evs
          ∧ (calls evs).length
              = [DemarshallerMethodData Example.sigCB1 Example.a1 Example.CB1 []].length + 1
          ∧ List.Forall₂
              (fun x cx => x.emitCallback [.int 10, .text "ahoj", .text "Foo"] = .ok cx)
              ([DemarshallerMethodData Example.sigCB1 Example.a1 Example.CB1 []]
                ++ [DemarshallerMethodData Example.sigCB2 Example.a1 Example.CB2 []])
              (calls evs) :=
  listener_failure_propagates Example.failing 0 [.int 10, .text "ahoj", .text "Foo"]
    Example.registered
    [DemarshallerMethodData Example.sigCB1 Example.a1 Example.CB1 []]
    [DemarshallerMethodData Example.sigCB3 Example.a1 Example.CB3 [.int 13],
     DemarshallerMethodData Example.sigCB4 Example.a1 Example.CB4 [.int 15],
     DemarshallerMethodData Example.sigCB5 Example.a1 Example.CB5 [.pointer Example.cbAddr],
     DemarshallerMethodData Example.sigCB1 Example.a2 Example.CB1 [],
     DemarshallerMethodData Example.sigCB2 Example.a2 Example.CB2 [],
     DemarshallerMethodData Example.sigCB3 Example.a2 Example.CB3 [.int 210],
     DemarshallerMethodData Example.sigCB4 Example.a2 Example.CB4 [.int 120],
     DemarshallerMethodData Example.sigCB5 Example.a2 Example.CB5 [.pointer Example.cbAddr]]
    (DemarshallerMethodData Example.sigCB2 Example.a1 Example.CB2 [])
    { binding := Example.sigCB2, receiver := Example.a1, method := Example.CB2,
      args := [.int 10, .text "ahoj"] }
    7 rfl (by decide)
    (by
      intro x hx cx hcx s a ha
      simp only [List.mem_singleton] at hx
      subst hx
      cases hcx
      simp [Example.failing, Example.CB1, Example.CB2, DemarshallerMethodData] at ha)
    rfl
    (fun _ => ⟨[], [], rfl, by simp⟩)

/-! ## Repeated registration -/

theorem registerAll_demarshallers (cb : Callback) (b : Binding) (r m : Nat)
    (uds : List (List Value)) :
    (registerAll cb b r m uds).demarshallers
      = cb.demarshallers ++ uds.map (DemarshallerMethodData b r m) := by
  induction uds generalizing cb with
  | nil => simp [registerAll]
  | cons ud uds ih =>
    rw [registerAll, ih]
    simp [Callback.registerCallbackMethod, Callback.appendDemarshaller]

theorem forall₂_append_left {α β : Type} (R : α → β → Prop) (xs ys : List α) (zs : List β)
    (h : List.Forall₂ R (xs ++ ys) zs) :
    ∃ zs1 zs2, zs = zs1 ++ zs2 ∧ List.Forall₂ R xs zs1 ∧ List.Forall₂ R ys zs2 := by
  induction xs generalizing zs with
  | nil => exact ⟨[], zs, rfl, List.Forall₂.nil, h⟩
  | cons x xs ih =>
    cases h with
    | cons hxz hrest =>
      obtain ⟨zs1, zs2, hzs, h1, h2⟩ := ih _ hrest
      exact ⟨_ :: zs1, zs2, by rw [hzs]; rfl, List.Forall₂.cons hxz h1, h2⟩

theorem forall₂_mem_right {α β : Type} (R : α → β → Prop) (xs : List α) (ys : List β)
    (h : List.Forall₂ R xs ys) : ∀ y ∈ ys, ∃ x ∈ xs, R x y := by
  induction h with
  | nil => simp
  | cons hxy _ ih =>
    intro y hy
    rcases List.mem_cons.mp hy with rfl | hy
    · exact ⟨_, List.mem_cons_self _ _, hxy⟩
    · obtain ⟨x, hx, hR⟩ := ih y hy
      exact ⟨x, List.mem_cons_of_mem _ hx, hR⟩

theorem forall₂_emitCallback_data (b : Binding) (r m : Nat) (args : List Value)
    (uds : List (List Value)) (cs : List Call)
    (hnew : ∀ ud ∈ uds, (DemarshallerMethodData b r m ud).invocable args.length = true)
    (h : List.Forall₂ (fun d c => d.emitCallback args = .ok c)
      (uds.map (DemarshallerMethodData b r m)) cs) :
    cs = uds.map (fun ud =>
      { binding := b, receiver := r, method := m,
        args := args.take (Private.ArgumentCount b - ud.length) ++ ud }) := by
  induction uds generalizing cs with
  | nil =>
    cases h
    rfl
  | cons ud uds ih =>
    simp only [List.map_cons] at h
    cases h with
    | cons hc hrest =>
      obtain ⟨u, hu, hk, hm⟩ :=
        (Demarshaller.invocable_iff _ _).mp (hnew ud (List.mem_cons_self _ _))
      simp only [DemarshallerMethodData, Option.some.injEq] at hu
      subst hu
      rw [Demarshaller.emitCallback_data _ ud args rfl hk hm] at hc
      cases hc
      rw [ih _ (fun x hx => hnew x (List.mem_cons_of_mem _ hx)) hrest]
      rfl

/-- C13, no duplicate elimination. Registering the same receiver `R` and method `M` once for
each of `n` lists of user data, equal or not, appends `n` separate records to the vector.
An emission in which the records can be invoked and no method emits or throws returns; its
calls are those of the records that were there before followed by `n` calls of `M` on `R`,
one per new record in the order of registration, each with the user data of its record, and
these are all the calls of `M` on `R` when the container had no record of `(R, M)` before.
One `unregisterCallbackMethod(R, M)` then gives the container that it gives without the `n`
registrations, in which no record of `(R, M)` is left. -/
theorem no_duplicate_elimination {σ : Type} (beh : Behaviour σ) (fuel : Nat)
    (args : List Value) (w : World σ) (b : Binding) (r m : Nat) (uds : List (List Value))
    (hinv : ∀ d ∈ w.cb.demarshallers, d.invocable args.length = true)
    (hnew : ∀ ud ∈ uds, (DemarshallerMethodData b r m ud).invocable args.length = true)
    (hbeh : ∀ s c, ∀ a ∈ (beh s c).2, a.isUpdate = true) :
    (registerAll w.cb b r m uds).demarshallers
        = w.cb.demarshallers ++ uds.map (DemarshallerMethodData b r m)
      ∧ (registerAll w.cb b r m uds).demarshallers.length
        = w.cb.demarshallers.length + uds.length
      ∧ (∃ w1 evs cs0,
          emitCallback beh (fuel + 1) args { w with cb := registerAll w.cb b r m uds } = .ok w1
          ∧ w1.log = w.log ++ evs
          ∧ List.Forall₂ (fun d c => d.emitCallback args = .ok c) w.cb.demarshallers cs0
          ∧ calls evs = cs0 ++ uds.map (fun ud =>
              { binding := b, receiver := r, method := m,
                args := args.take (Private.ArgumentCount b - ud.length) ++ ud })
          ∧ ((∀ d ∈ w.cb.demarshallers, ¬(d.binding = b ∧ d.receiver = r ∧ d.method = m)) →
              (calls evs).filter
                  (fun c => decide (c.binding = b ∧ c.receiver = r ∧ c.method = m))
                = uds.map (fun ud =>
                    { binding := b, receiver := r, method := m,
                      args := args.take (Private.ArgumentCount b - ud.length) ++ ud })))
      ∧ (registerAll w.cb b r m uds).unregisterCallbackMethod b r m
        = w.cb.unregisterCallbackMethod b r m
      ∧ ((registerAll w.cb b r m uds).unregisterCallbackMethod b r m).demarshallers.filter
          (fun d => decide (d.binding = b ∧ d.receiver = r ∧ d.method = m)) = [] := by
  have hvec := registerAll_demarshallers w.cb b r m uds
  have hunreg : (registerAll w.cb b r m uds).unregisterCallbackMethod b r m
      = w.cb.unregisterCallbackMethod b r m := by
    apply Callback.eq_of_demarshallers
    rw [unregisterCallbackMethod_demarshallers, unregisterCallbackMethod_demarshallers, hvec,
      List.filter_append]
    have hnil : (uds.map (DemarshallerMethodData b r m)).filter
        (fun d => !decide (d.binding = b ∧ d.receiver = r ∧ d.method = m)) = [] := by
      rw [List.filter_eq_nil_iff]
      intro d hd
      obtain ⟨ud, -, rfl⟩ := List.mem_map.mp hd
      simp [DemarshallerMethodData]
    rw [hnil, List.append_nil]
  refine ⟨hvec, by rw [hvec, List.length_append, List.length_map], ?_, hunreg, ?_⟩
  · obtain ⟨w1, evs, hrun, hlog, hcalls, -, -⟩ :=
      emitCallback_updates (fun a => a.isUpdate = true) (fun _ h => h) beh fuel args
        { w with cb := registerAll w.cb b r m uds }
        (by
          intro d hd
          simp only [hvec, List.mem_append, List.mem_map] at hd
          rcases hd with hd | ⟨ud, hud, rfl⟩
          · exact hinv d hd
          · exact hnew ud hud)
        (fun _ _ c _ s => hbeh s c)
    simp only [hvec] at hcalls
    obtain ⟨cs0, cs1, hsplit, h0, h1⟩ := forall₂_append_left _ _ _ _ hcalls
    have hcs1 := forall₂_emitCallback_data b r m args uds cs1 hnew h1
    refine ⟨w1, evs, cs0, hrun, hlog, h0, by rw [hsplit, hcs1], ?_⟩
    intro habsent
    rw [hsplit, hcs1, List.filter_append]
    have hold : cs0.filter
        (fun c => decide (c.binding = b ∧ c.receiver = r ∧ c.method = m)) = [] := by
      rw [List.filter_eq_nil_iff]
      intro c hc
      obtain ⟨d, hd, hdc⟩ := forall₂_mem_right _ _ _ h0 c hc
      obtain ⟨hb, hr, hm⟩ := d.targets_of_emitCallback args c hdc
      simp only [decide_eq_true_eq]
      rw [hb, hr, hm]
      exact habsent d hd
    have hall : (uds.map (fun ud =>
        ({ binding := b, receiver := r, method := m,
           args := args.take (Private.ArgumentCount b - ud.length) ++ ud } : Call))).filter
        (fun c => decide (c.binding = b ∧ c.receiver = r ∧ c.method = m))
        = uds.map (fun ud =>
          { binding := b, receiver := r, method := m,
            args := args.take (Private.ArgumentCount b - ud.length) ++ ud }) := by
      rw [List.filter_eq_self]
      intro c hc
      obtain ⟨ud, -, rfl⟩ := List.mem_map.mp hc
      simp
    rw [hold, hall, List.nil_append]
  · rw [hunreg, unregisterCallbackMethod_demarshallers, List.filter_filter,
      List.filter_eq_nil_iff]
    intro d _
    simp

/-- Witness of C13: `CB3` of a third receiver, at address 1003, registered three times, with
the user data 1, 2 and again 1, on the container of `main` after the ten registrations. -/
theorem no_duplicate_elimination_witness :
    (registerAll Example.registered.cb Example.sigCB3 1003 Example.CB3
        [[.int 1], [.int 2], [.int 1]]).demarshallers
        = Example.registered.cb.demarshallers
          ++ [[Value.int 1], [.int 2], [.int 1]].map
              (DemarshallerMethodData Example.sigCB3 1003 Example.CB3)
      ∧ (registerAll Example.registered.cb Example.sigCB3 1003 Example.CB3
          [[.int 1], [.int 2], [.int 1]]).demarshallers.length
        = Example.registered.cb.demarshallers.length
          + [[Value.int 1], [.int 2], [.int 1]].length
      ∧ (∃ w1 evs cs0,
          emitCallback Example.body 1 [.int 10, .text "ahoj", .text "Foo"]
            { Example.registered with
              cb := registerAll Example.registered.cb Example.sigCB3 1003 Example.CB3
                [[.int 1], [.int 2], [.int 1]] } = .ok w1
          ∧ w1.log = Example.registered.log ++ evs
          ∧ List.Forall₂
              (fun d c => d.emitCallback [.int 10, .text "ahoj", .text "Foo"] = .ok c)
              Example.registered.cb.demarshallers cs0
          ∧ calls evs = cs0 ++ [[Value.int 1], [.int 2], [.int 1]].map (fun ud =>
              { binding := Example.sigCB3, receiver := 1003, method := Example.CB3,
                args := List.take (Private.ArgumentCount Example.sigCB3 - ud.length)
                  [.int 10, .text "ahoj", .text "Foo"] ++ ud })
          ∧ ((∀ d ∈ Example.registered.cb.demarshallers,
                ¬(d.binding = Example.sigCB3 ∧ d.receiver = 1003
                  ∧ d.method = Example.CB3)) →
              (calls evs).filter
                  (fun c => decide (c.binding = Example.sigCB3 ∧ c.receiver = 1003
                    ∧ c.method = Example.CB3))
                = [[Value.int 1], [.int 2], [.int 1]].map (fun ud =>
                    { binding := Example.sigCB3, receiver := 1003,
                      method := Example.CB3,
                      args := List.take (Private.ArgumentCount Example.sigCB3 - ud.length)
                        [.int 10, .text "ahoj", .text "Foo"] ++ ud })))
      ∧ (registerAll Example.registered.cb Example.sigCB3 1003 Example.CB3
          [[.int 1], [.int 2], [.int 1]]).unregisterCallbackMethod Example.sigCB3 1003
            Example.CB3
        = Example.registered.cb.unregisterCallbackMethod Example.sigCB3 1003 Example.CB3
      ∧ ((registerAll Example.registered.cb Example.sigCB3 1003 Example.CB3
          [[.int 1], [.int 2], [.int 1]]).unregisterCallbackMethod Example.sigCB3 1003
            Example.CB3).demarshallers.filter
          (fun d => decide (d.binding = Example.sigCB3 ∧ d.receiver = 1003
            ∧ d.method = Example.CB3)) = [] :=
  no_duplicate_elimination Example.body 0 [.int 10, .text "ahoj", .text "Foo"]
    Example.registered Example.sigCB3 1003 Example.CB3 [[.int 1], [.int 2], [.int 1]]
    (by decide) (by decide) Example.body_isUpdate

end OCallback
